import Mathlib

/-!
Verification development for the caption-forge backend.

The definitions below are a shallow embedding of the caption versioning and
bulk-edit/rollback subsystem (backend/services/caption_service.py,
backend/schemas.py, backend/api/captions.py).  Python strings are modelled as
Lean strings (ASCII case mapping stands in for the Unicode case mapping),
SQLAlchemy rows as Lean structures, the database session as an explicit state
value, and Python exceptions as Except values.  Regular-expression substitution
(re.sub of Python) is an external library from the point of view of the service
code; it is modelled as a total oracle (RegexEngine) shared by every code path
that calls it.
-/

/-! ### Python string primitives used by the service code -/

/-- Python slicing s[:n], by characters. -/
def pySlice (s : String) (n : Nat) : String :=
  String.mk (s.data.take n)

/-- Python str.strip(): drop leading and trailing whitespace. -/
def pyStrip (s : String) : String :=
  String.mk (((s.data.dropWhile Char.isWhitespace).reverse.dropWhile
    Char.isWhitespace).reverse)

/-- Python str.split(sep) for a one-character separator: the list of chunks
between separator occurrences, keeping empty chunks ("".split(".") is [""],
"a.".split(".") is ["a", ""]). -/
def splitOnChar (sep : Char) : List Char → List (List Char)
  | [] => [[]]
  | c :: cs =>
    if c = sep then [] :: splitOnChar sep cs
    else
      match splitOnChar sep cs with
      | [] => [[c]]
      | h :: t => (c :: h) :: t

/-- Python str.split(".") on a String. -/
def pySplitDot (s : String) : List String :=
  (splitOnChar '.' s.data).map String.mk

/-- Python str.capitalize: first character uppercased, all remaining characters
lowercased (ASCII case mapping). -/
def pyCapitalize (s : String) : String :=
  match s.data with
  | [] => ""
  | c :: cs => String.mk (c.toUpper :: cs.map Char.toLower)

/-- Helper for Python str.title: the Bool records whether the previous
character was alphabetic. -/
def titleAux : Bool → List Char → List Char
  | _, [] => []
  | prevAlpha, c :: cs =>
    if c.isAlpha then
      (if prevAlpha then c.toLower else c.toUpper) :: titleAux true cs
    else
      c :: titleAux false cs

/-- Python str.title (ASCII): uppercase each letter that follows a non-letter,
lowercase every other letter. -/
def pyTitle (s : String) : String :=
  String.mk (titleAux false s.data)

/-- Collapse each maximal run of whitespace characters to a single space:
Python re.sub of one-or-more whitespace with a single space. -/
def collapseWS : List Char → List Char
  | [] => []
  | [c] => if c.isWhitespace then [' '] else [c]
  | c :: d :: rest =>
    if c.isWhitespace && d.isWhitespace then collapseWS (d :: rest)
    else (if c.isWhitespace then ' ' else c) :: collapseWS (d :: rest)

/-- Case-insensitive test that the first list is a prefix of the second
(ASCII case folding, as used by re.IGNORECASE on a literal pattern). -/
def matchesCI : List Char → List Char → Bool
  | [], _ => true
  | _ :: _, [] => false
  | a :: as, b :: bs => a.toLower == b.toLower && matchesCI as bs

/-- Case-insensitive literal substitution: Python
re.compile(re.escape(find), re.IGNORECASE).sub(repl, text).
Matches are found left to right and do not overlap; an empty pattern matches
between every pair of characters, as in Python. -/
def isub (find repl : List Char) : List Char → List Char
  | [] => if find.isEmpty then repl else []
  | c :: cs =>
    if find.isEmpty then repl ++ c :: isub find repl cs
    else if matchesCI find (c :: cs) then
      repl ++ isub find repl (cs.drop (find.length - 1))
    else
      c :: isub find repl cs
termination_by l => l.length
decreasing_by
  all_goals (simp_wf; (try omega))

/-- Python f-string rendering of an optional string (None prints as "None"). -/
def pyStrOpt : Option String → String
  | some s => s
  | none => "None"

/-- Python truthiness test for an optional string: None and the empty string
are falsy. -/
def optFalsy : Option String → Bool
  | none => true
  | some s => s == ""

/-! ### Bulk-edit operation schema (backend/schemas.py) -/

/-- One bulk-edit operation (schemas.BulkEditOperation).  Optional fields model
the nullable pydantic fields; the schema-level regex pattern on
operation_type / case_type is not re-stated here because no claim depends on
it. -/
structure BulkEditOperation where
  operation_type : String
  text : Option String := none
  find : Option String := none
  replace : Option String := none
  use_regex : Bool := false
  case_sensitive : Bool := true
  case_type : Option String := none
  pattern : Option String := none
  pattern_is_regex : Bool := false
deriving DecidableEq

/-- A bulk-edit request (schemas.BulkEditRequest): the ordered operation
pipeline. -/
structure BulkEditRequest where
  operations : List BulkEditOperation
deriving DecidableEq

/-- schemas.BulkEditRequest.validate_operations: pydantic model validator,
raising (as Except.error) on the first operation whose required field is
absent.  Python truthiness makes the empty string count as absent, exactly as
`not op.text` does. -/
def validate_operations : List BulkEditOperation → Except String Unit
  | [] => .ok ()
  | op :: rest =>
    if (op.operation_type == "prepend" || op.operation_type == "append")
        && optFalsy op.text then
      .error (op.operation_type ++ " operation requires \x27text\x27 field")
    else if op.operation_type == "find_replace"
        && (optFalsy op.find || op.replace == none) then
      .error "find_replace operation requires \x27find\x27 and \x27replace\x27 fields"
    else if op.operation_type == "case_convert" && optFalsy op.case_type then
      .error "case_convert operation requires \x27case_type\x27 field"
    else if op.operation_type == "remove_pattern" && optFalsy op.pattern then
      .error "remove_pattern operation requires \x27pattern\x27 field"
    else
      validate_operations rest

/-- An operation that is missing the required field for its kind, as the claim
lists them: prepend/append missing text, find_replace missing find or with
null replace, case_convert missing case_type, remove_pattern missing
pattern. -/
def MissingRequiredField (op : BulkEditOperation) : Prop :=
  ((op.operation_type = "prepend" ∨ op.operation_type = "append") ∧ op.text = none)
  ∨ (op.operation_type = "find_replace" ∧ (op.find = none ∨ op.replace = none))
  ∨ (op.operation_type = "case_convert" ∧ op.case_type = none)
  ∨ (op.operation_type = "remove_pattern" ∧ op.pattern = none)

instance (op : BulkEditOperation) : Decidable (MissingRequiredField op) := by
  unfold MissingRequiredField; infer_instance

/-! ### Text transform engine (CaptionService._apply_operation) -/

/-- Total oracle for re.sub of Python: sub pattern repl text caseSensitive.
Both the preview and the apply path call the same oracle, mirroring the fact
that both call the same re library. -/
structure RegexEngine where
  sub : String → String → String → Bool → String

/-- A trivial regex engine, used to instantiate oracle-quantified theorems at
concrete inputs. -/
def idRegexEngine : RegexEngine :=
  ⟨fun _ _ text _ => text⟩

/-- CaptionService._apply_operation.  Accessing a missing (None) field raises
a TypeError in Python; that is modelled as Except.error.  Requests that passed
validate_operations never hit those branches. -/
def apply_operation (r : RegexEngine) (text : String) (op : BulkEditOperation) :
    Except String String :=
  if op.operation_type = "prepend" then
    match op.text with
    | some t => .ok (t ++ text)
    | none => .error "TypeError: can only concatenate str"
  else if op.operation_type = "append" then
    match op.text with
    | some t => .ok (text ++ t)
    | none => .error "TypeError: can only concatenate str"
  else if op.operation_type = "find_replace" then
    if op.use_regex then
      match op.find, op.replace with
      | some f, some rep => .ok (r.sub f rep text op.case_sensitive)
      | _, _ => .error "TypeError: expected string pattern"
    else
      match op.find, op.replace with
      | some f, some rep =>
        if op.case_sensitive then .ok (text.replace f rep)
        else .ok (String.mk (isub f.data rep.data text.data))
      | _, _ => .error "TypeError: expected string pattern"
  else if op.operation_type = "trim" then
    .ok (String.mk (collapseWS (pyStrip text).data))
  else if op.operation_type = "case_convert" then
    if op.case_type = some "upper" then .ok (text.map Char.toUpper)
    else if op.case_type = some "lower" then .ok (text.map Char.toLower)
    else if op.case_type = some "title" then .ok (pyTitle text)
    else if op.case_type = some "sentence" then
      .ok (String.intercalate ". "
        (((pySplitDot text).filter (fun s => pyStrip s ≠ "")).map
          (fun s => pyCapitalize (pyStrip s))))
    else .ok text
  else if op.operation_type = "remove_pattern" then
    if op.pattern_is_regex then
      match op.pattern with
      | some p => .ok (r.sub p "" text true)
      | none => .error "TypeError: expected string pattern"
    else
      match op.pattern with
      | some p => .ok (text.replace p "")
      | none => .error "TypeError: expected string pattern"
  else
    .ok text

/-- Fold the whole operation pipeline over a text, in array order, each
operation consuming the output of the previous one. -/
def pipelineText (r : RegexEngine) (ops : List BulkEditOperation) (t : String) :
    Except String String :=
  ops.foldlM (fun acc op => apply_operation r acc op) t

/-! ### Operation summary (CaptionService._build_operation_summary) -/

/-- The per-operation summary string, as built by the loop body of
_build_operation_summary; operations of an unknown kind contribute nothing.
Python renders None inside an f-string as "None"; slicing a None text field
would raise, which validated requests rule out, so the text field defaults to
the empty string here. -/
def summarizeOperation (op : BulkEditOperation) : Option String :=
  if op.operation_type = "prepend" then
    some ("Prepend \x27" ++ pySlice (op.text.getD "") 20
      ++ (if (op.text.getD "").length > 20 then "..." else "") ++ "\x27")
  else if op.operation_type = "append" then
    some ("Append \x27" ++ pySlice (op.text.getD "") 20
      ++ (if (op.text.getD "").length > 20 then "..." else "") ++ "\x27")
  else if op.operation_type = "find_replace" then
    some ("Replace \x27" ++ pyStrOpt op.find ++ "\x27 with \x27"
      ++ pyStrOpt op.replace ++ "\x27" ++ (if op.use_regex then " (regex)" else ""))
  else if op.operation_type = "trim" then
    some "Trim whitespace"
  else if op.operation_type = "case_convert" then
    some ("Convert to " ++ pyStrOpt op.case_type ++ "case")
  else if op.operation_type = "remove_pattern" then
    some ("Remove pattern \x27" ++ pyStrOpt op.pattern ++ "\x27"
      ++ (if op.pattern_is_regex then " (regex)" else ""))
  else
    none

/-- CaptionService._build_operation_summary: collect the per-operation
summaries and join them with "; ". -/
def build_operation_summary (ops : List BulkEditOperation) : String :=
  String.intercalate "; " (ops.filterMap summarizeOperation)

/-! ### Persistence entities

Modelled from the spec: the SQLAlchemy models module itself is not among the
given sources, so the entity shapes follow spec section 3 together with the
fields the service code reads and writes.  Identifiers are natural numbers,
Python floats (quality_score) are rationals (they are only ever stored and
copied, never computed with), and the serialized quality_flags blob is kept as
the list it serializes. -/

/-- Modelled from the spec: the Caption row (one caption per
(caption_set_id, file_id) pair, holding the current text). -/
structure Caption where
  id : Nat
  caption_set_id : Nat
  file_id : Nat
  text : String
  source : String
  vision_model : Option String
  quality_score : Option Rat
  quality_flags : Option (List String)
deriving DecidableEq

/-- Modelled from the spec: the CaptionVersion ledger row (a pre-change
snapshot, tagged with the operation that superseded it, plus denormalized
copies of the caption fields). -/
structure CaptionVersion where
  id : Nat
  caption_id : Nat
  version_number : Nat
  text : String
  operation : String
  operation_description : Option String
  source : Option String
  vision_model : Option String
  quality_score : Option Rat
  quality_flags : Option (List String)
deriving DecidableEq

/-- schemas.CaptionCreate: the upsert request body. -/
structure CaptionCreate where
  file_id : Nat
  text : String
  source : String
  vision_model : Option String := none
  quality_score : Option Rat := none
  quality_flags : Option (List String) := none
deriving DecidableEq

/-- Modelled from the spec: the database state the caption service reads and
writes — tracked-file ids, caption-set ids, caption rows, ledger rows, and
fresh-id counters standing in for generated primary keys.  Caption-set
metadata (name, caption_count, ...) is omitted: no claim depends on it. -/
structure DB where
  files : List Nat
  captionSets : List Nat
  captions : List Caption
  versions : List CaptionVersion
  nextCaptionId : Nat
  nextVersionId : Nat
deriving DecidableEq

/-- CaptionService.get_caption: first caption row with the given id. -/
def getCaption (db : DB) (cid : Nat) : Option Caption :=
  db.captions.find? (fun c => c.id == cid)

/-- CaptionService.get_caption_for_file. -/
def getCaptionForFile (db : DB) (sid fid : Nat) : Option Caption :=
  db.captions.find? (fun c => c.caption_set_id == sid && c.file_id == fid)

/-- The ledger rows of one caption, in table order. -/
def versionsFor (db : DB) (cid : Nat) : List CaptionVersion :=
  db.versions.filter (fun v => v.caption_id == cid)

/-- The row with the maximal version_number (ORDER BY version_number DESC
LIMIT 1); on the (well-formedness-excluded) tie, the earlier row wins. -/
def latestOf (l : List CaptionVersion) : Option CaptionVersion :=
  l.foldl (fun acc v =>
    match acc with
    | none => some v
    | some u => if u.version_number < v.version_number then some v else some u) none

/-- The most recent ledger entry of a caption. -/
def latestVersion (db : DB) (cid : Nat) : Option CaptionVersion :=
  latestOf (versionsFor db cid)

/-- CaptionService._create_version: snapshot the current (pre-change)
state at version number count(existing versions) + 1.  The returned state has
the row staged (flushed, not yet committed — commits are identity in this
model, so staging and committing coincide). -/
def create_version (db : DB) (c : Caption) (operation : String)
    (operation_description : Option String) : DB × CaptionVersion :=
  let v : CaptionVersion :=
    { id := db.nextVersionId
      caption_id := c.id
      version_number := (versionsFor db c.id).length + 1
      text := c.text
      operation := operation
      operation_description := operation_description
      source := some c.source
      vision_model := c.vision_model
      quality_score := c.quality_score
      quality_flags := c.quality_flags }
  ({ db with versions := db.versions ++ [v], nextVersionId := db.nextVersionId + 1 }, v)

/-- In-place mutation of a fetched caption row: every row carrying this id is
overwritten (under the no-duplicate-id invariant there is exactly one). -/
def setCaption (db : DB) (c : Caption) : DB :=
  { db with captions := db.captions.map (fun x => if x.id == c.id then c else x) }

/-- CaptionService.update_caption: version-then-mutate, forcing source to
"manual". -/
def update_caption (db : DB) (cid : Nat) (text : String) :
    Option (DB × Caption) :=
  match getCaption db cid with
  | none => none
  | some c =>
    let db1 := (create_version db c "manual_edit" (some "Caption text updated")).1
    let c' := { c with text := text, source := "manual" }
    some (setCaption db1 c', c')

/-- CaptionService.create_or_update_caption.  The caption_count recompute on
the owning caption set and the DatasetFile quality propagation are omitted (no
claim touches them). -/
def create_or_update_caption (db : DB) (sid : Nat) (data : CaptionCreate)
    (createVersionFlag : Bool := true) : Except String (DB × Caption) :=
  if data.file_id ∈ db.files then
    let qfj : Option (List String) :=
      match data.quality_flags with
      | some l => if l = [] then none else some l
      | none => none
    match getCaptionForFile db sid data.file_id with
    | some c =>
      let db1 :=
        if createVersionFlag then
          (create_version db c
            (if data.source = "manual" then "manual_edit"
             else "auto_generate_" ++ data.source)
            (some ("Updated caption from " ++ c.source ++ " to " ++ data.source))).1
        else db
      let c' := { c with
        text := data.text
        source := data.source
        vision_model := if data.vision_model ≠ none then data.vision_model else c.vision_model
        quality_score := if data.quality_score ≠ none then data.quality_score else c.quality_score
        quality_flags := if qfj ≠ none then qfj else c.quality_flags }
      .ok (setCaption db1 c', c')
    | none =>
      let c : Caption :=
        { id := db.nextCaptionId
          caption_set_id := sid
          file_id := data.file_id
          text := data.text
          source := data.source
          vision_model := data.vision_model
          quality_score := data.quality_score
          quality_flags := qfj }
      .ok ({ db with captions := db.captions ++ [c],
                     nextCaptionId := db.nextCaptionId + 1 }, c)
  else
    .error ("File not found: " ++ toString data.file_id)

/-- The caption-field restore shared (as duplicated assignments) by
rollback_caption and apply_bulk_rollback: overwrite from the stored
values, falling back to the current source when the stored source is falsy
(None or empty). -/
def rollbackRestore (c : Caption) (v : CaptionVersion) : Caption :=
  { c with
    text := v.text
    source := match v.source with
      | some s => if s = "" then c.source else s
      | none => c.source
    vision_model := v.vision_model
    quality_score := v.quality_score
    quality_flags := v.quality_flags }

/-- CaptionService.rollback_caption: None for a missing caption, ValueError
(Except.error) for a missing version scoped to the caption, otherwise snapshot
the current state as operation "rollback" and restore from the target
version. -/
def rollback_caption (db : DB) (cid vid : Nat) :
    Except String (Option (DB × Caption)) :=
  match getCaption db cid with
  | none => .ok none
  | some c =>
    match db.versions.find? (fun v => v.id == vid && v.caption_id == cid) with
    | none => .error ("Version not found: " ++ toString vid)
    | some v =>
      let db1 := (create_version db c "rollback"
        (some ("Rolled back to version " ++ toString v.version_number))).1
      let c' := rollbackRestore c v
      .ok (some (setCaption db1 c', c'))

/-! ### Bulk edit: preview and apply (CaptionService) -/

/-- One before/after sample row of the preview (schemas.CaptionPreview). -/
structure CaptionPreviewRow where
  caption_id : Nat
  file_id : Nat
  before : String
  after : String
deriving DecidableEq

/-- schemas.BulkEditPreviewResponse. -/
structure BulkEditPreview where
  total_captions : Nat
  affected_captions : Nat
  samples : List CaptionPreviewRow
  operation_summary : String
deriving DecidableEq

/-- One row of the per-caption soft-failure collection. -/
structure BulkErrorRow where
  caption_id : Nat
  file_id : Nat
  error : String
deriving DecidableEq

/-- schemas.BulkEditApplyResponse. -/
structure BulkEditResult where
  updated_count : Nat
  skipped_count : Nat
  error_count : Nat
  errors : List BulkErrorRow
deriving DecidableEq

/-- schemas.BulkRollbackApplyResponse. -/
structure BulkRollbackResult where
  rolled_back_count : Nat
  skipped_count : Nat
  error_count : Nat
  errors : List BulkErrorRow
deriving DecidableEq

/-- The caption loop of preview_bulk_edit: run the pipeline over every caption,
collecting the affected ones in iteration order; an exception propagates (the
preview loop has no per-caption handler). -/
def previewLoop (r : RegexEngine) (ops : List BulkEditOperation) :
    List Caption → List CaptionPreviewRow → Except String (List CaptionPreviewRow)
  | [], acc => .ok acc
  | c :: rest, acc =>
    match pipelineText r ops c.text with
    | .error e => .error e
    | .ok t =>
      if t ≠ c.text then
        previewLoop r ops rest (acc ++ [⟨c.id, c.file_id, c.text, t⟩])
      else
        previewLoop r ops rest acc

/-- CaptionService.preview_bulk_edit: no persistence, up to 5 samples, counts
a caption as affected iff the pipeline output differs from its text. -/
def preview_bulk_edit (r : RegexEngine) (db : DB) (sid : Nat)
    (req : BulkEditRequest) : Except String BulkEditPreview :=
  let cs := db.captions.filter (fun c => c.caption_set_id == sid)
  if cs.isEmpty then
    .ok ⟨0, 0, [], build_operation_summary req.operations⟩
  else
    match previewLoop r req.operations cs [] with
    | .error e => .error e
    | .ok affected =>
      .ok ⟨cs.length, affected.length, affected.take 5,
           build_operation_summary req.operations⟩

/-- The caption loop of apply_bulk_edit: per caption, run the pipeline; on
change snapshot (operation "bulk_edit", description = the operation summary)
then overwrite text and force source to "manual"; unchanged captions are
skipped; a per-caption exception lands in the errors list and processing
continues. -/
def applyBulkEditLoop (r : RegexEngine) (ops : List BulkEditOperation)
    (summary : String) :
    List Caption → DB → Nat → Nat → List BulkErrorRow →
    DB × Nat × Nat × List BulkErrorRow
  | [], db, upd, skp, errs => (db, upd, skp, errs)
  | c :: rest, db, upd, skp, errs =>
    match pipelineText r ops c.text with
    | .error e =>
      applyBulkEditLoop r ops summary rest db upd skp (errs ++ [⟨c.id, c.file_id, e⟩])
    | .ok t =>
      if t ≠ c.text then
        let db1 := (create_version db c "bulk_edit" (some summary)).1
        let db2 := setCaption db1 { c with text := t, source := "manual" }
        applyBulkEditLoop r ops summary rest db2 (upd + 1) skp errs
      else
        applyBulkEditLoop r ops summary rest db upd (skp + 1) errs

/-- CaptionService.apply_bulk_edit: process every caption of the set, commit
once at the end (commit is identity here). -/
def apply_bulk_edit (r : RegexEngine) (db : DB) (sid : Nat)
    (req : BulkEditRequest) : DB × BulkEditResult :=
  let summary := build_operation_summary req.operations
  let cs := db.captions.filter (fun c => c.caption_set_id == sid)
  let out := applyBulkEditLoop r req.operations summary cs db 0 0 []
  (out.1, ⟨out.2.1, out.2.2.1, out.2.2.2.length, out.2.2.2⟩)

/-! ### Bulk rollback (CaptionService.apply_bulk_rollback) -/

/-- The caption loop of apply_bulk_rollback: skip unless the most recent
ledger entry has operation "bulk_edit"; otherwise snapshot the current state
as operation "bulk_rollback" and restore from that entry (it stores the
pre-bulk-edit values). -/
def applyBulkRollbackLoop :
    List Caption → DB → Nat → Nat → DB × Nat × Nat
  | [], db, rb, skp => (db, rb, skp)
  | c :: rest, db, rb, skp =>
    match latestVersion db c.id with
    | none => applyBulkRollbackLoop rest db rb (skp + 1)
    | some v =>
      if v.operation = "bulk_edit" then
        let db1 := (create_version db c "bulk_rollback"
          (some ("Rolled back bulk edit: " ++ pyStrOpt v.operation_description))).1
        let db2 := setCaption db1 (rollbackRestore c v)
        applyBulkRollbackLoop rest db2 (rb + 1) skp
      else
        applyBulkRollbackLoop rest db rb (skp + 1)

/-- CaptionService.apply_bulk_rollback.  No per-caption exception can arise in
the model, so the errors list is always empty — as it is in Python unless the
storage layer itself fails. -/
def apply_bulk_rollback (db : DB) (sid : Nat) : DB × BulkRollbackResult :=
  let cs := db.captions.filter (fun c => c.caption_set_id == sid)
  let out := applyBulkRollbackLoop cs db 0 0
  (out.1, ⟨out.2.1, out.2.2, 0, []⟩)

/-! ### API layer (backend/api/captions.py) -/

/-- The error kinds an endpoint surfaces: 422 for a pydantic validation
failure (the spec's InvalidOperation), 404 for a missing entity, 400 for a
ValueError escaping a service call. -/
inductive ApiError
  | invalidOperation (msg : String)
  | notFound (msg : String)
  | badRequest (msg : String)
deriving DecidableEq

/-- POST /captions/(caption_id)/rollback/(version_id): None from the service
becomes 404 Not Found, a ValueError becomes 400 Bad Request. -/
def rollbackCaptionEndpoint (db : DB) (cid vid : Nat) :
    DB × Except ApiError Caption :=
  match rollback_caption db cid vid with
  | .ok none => (db, .error (.notFound "Caption not found"))
  | .error e => (db, .error (.badRequest e))
  | .ok (some (db', c)) => (db', .ok c)

/-- POST /caption-sets/(caption_set_id)/bulk-edit-apply: the request body is
validated by pydantic before the handler runs (a failure never reaches the
service), then the caption set is looked up, then the service applies the
edit. -/
def bulkEditApplyEndpoint (r : RegexEngine) (db : DB) (sid : Nat)
    (ops : List BulkEditOperation) : DB × Except ApiError BulkEditResult :=
  match validate_operations ops with
  | .error m => (db, .error (.invalidOperation m))
  | .ok _ =>
    if sid ∈ db.captionSets then
      let out := apply_bulk_edit r db sid ⟨ops⟩
      (out.1, .ok out.2)
    else
      (db, .error (.notFound "Caption set not found"))

/-! ### The mutating service operations, as one step relation -/

/-- A mutating caption operation: manual single-caption edit, upsert, bulk
edit, single-version rollback, bulk rollback. -/
inductive SvcOp
  | updateCaption (cid : Nat) (text : String)
  | upsert (sid : Nat) (data : CaptionCreate) (createVersionFlag : Bool)
  | bulkEdit (sid : Nat) (ops : List BulkEditOperation)
  | rollback (cid vid : Nat)
  | bulkRollback (sid : Nat)

/-- Run one mutating operation against the database (failures leave the state
unchanged, as the surrounding transaction never commits a failed call). -/
def step (r : RegexEngine) (op : SvcOp) (db : DB) : DB :=
  match op with
  | .updateCaption cid t =>
    match update_caption db cid t with
    | some (db', _) => db'
    | none => db
  | .upsert sid data cv =>
    match create_or_update_caption db sid data cv with
    | .ok (db', _) => db'
    | .error _ => db
  | .bulkEdit sid ops => (apply_bulk_edit r db sid ⟨ops⟩).1
  | .rollback cid vid =>
    match rollback_caption db cid vid with
    | .ok (some (db', _)) => db'
    | _ => db
  | .bulkRollback sid => (apply_bulk_rollback db sid).1

/-! ### Well-formedness predicates and derived per-caption outcomes -/

/-- No two caption rows share a primary key. -/
def CaptionsWF (db : DB) : Prop :=
  (db.captions.map (fun c => c.id)).Nodup

instance (db : DB) : Decidable (CaptionsWF db) := by
  unfold CaptionsWF; infer_instance

/-- Every ledger row of the caption has a version number bounded by the
ledger depth — the part of the ledger invariant that makes the freshly
appended row the new maximum. -/
def versionsBounded (db : DB) (cid : Nat) : Prop :=
  ∀ v ∈ versionsFor db cid, v.version_number ≤ (versionsFor db cid).length

instance (db : DB) (cid : Nat) : Decidable (versionsBounded db cid) := by
  unfold versionsBounded; infer_instance

/-- The multiset of version numbers of one caption. -/
def versionNums (db : DB) (cid : Nat) : List Nat :=
  (versionsFor db cid).map (fun v => v.version_number)

/-- The ledger invariant: per caption, the version numbers are pairwise
distinct and lie in 1..depth — equivalently (see ledger_nums_iff) they are
exactly 1..depth with no gaps and no duplicates. -/
def LedgerWF (db : DB) : Prop :=
  ∀ cid : Nat, (versionNums db cid).Nodup ∧
    ∀ n ∈ versionNums db cid, 1 ≤ n ∧ n ≤ (versionNums db cid).length

/-- Whether the pipeline changes the text of this caption — the condition under
which both preview counts it affected and apply counts it updated. -/
def pipelineChanges (r : RegexEngine) (ops : List BulkEditOperation)
    (c : Caption) : Bool :=
  match pipelineText r ops c.text with
  | .ok t => t ≠ c.text
  | .error _ => false

/-- Whether the ledger tip of a caption carries operation "bulk_edit" — the bulk
rollback eligibility test. -/
def tipIsBulkEdit (db : DB) (c : Caption) : Bool :=
  match latestVersion db c.id with
  | some v => v.operation == "bulk_edit"
  | none => false

/-- The per-caption effect of one apply_bulk_edit pass on a caption row:
changed text and forced "manual" source when the pipeline changes the text,
the untouched row otherwise (also on a pipeline exception). -/
def bulkEditOutcome (r : RegexEngine) (ops : List BulkEditOperation)
    (c : Caption) : Caption :=
  match pipelineText r ops c.text with
  | .ok t => if t ≠ c.text then { c with text := t, source := "manual" } else c
  | .error _ => c

/-- The per-caption effect of one apply_bulk_rollback pass on a caption row,
relative to the database state in which its ledger tip is read. -/
def bulkRollbackOutcome (db : DB) (c : Caption) : Caption :=
  match latestVersion db c.id with
  | some v => if v.operation = "bulk_edit" then rollbackRestore c v else c
  | none => c

/-! ### Spec-side definitions, written from the wording of the claims -/

/-- The truncation the claim describes for a literal text field: fields longer than 20
characters are cut to their first 20 characters followed by an ellipsis
marker. -/
def claimTruncate (t : String) : String :=
  if t.length > 20 then pySlice t 20 ++ "..." else t

/-- The per-operation summary as the claim words it: each operation kind formatted with its
key parameters, literal text fields truncated via claimTruncate (the claim
presupposes a validated request, so a prepend/append without its text field
contributes nothing here). -/
def claimSummaryItem (op : BulkEditOperation) : Option String :=
  if op.operation_type = "prepend" then
    match op.text with
    | some t => some ("Prepend \x27" ++ claimTruncate t ++ "\x27")
    | none => none
  else if op.operation_type = "append" then
    match op.text with
    | some t => some ("Append \x27" ++ claimTruncate t ++ "\x27")
    | none => none
  else if op.operation_type = "find_replace" then
    some ("Replace \x27" ++ pyStrOpt op.find ++ "\x27 with \x27"
      ++ pyStrOpt op.replace ++ "\x27" ++ (if op.use_regex then " (regex)" else ""))
  else if op.operation_type = "trim" then
    some "Trim whitespace"
  else if op.operation_type = "case_convert" then
    some ("Convert to " ++ pyStrOpt op.case_type ++ "case")
  else if op.operation_type = "remove_pattern" then
    some ("Remove pattern \x27" ++ pyStrOpt op.pattern ++ "\x27"
      ++ (if op.pattern_is_regex then " (regex)" else ""))
  else
    none

/-- The operation summary as the claim words it: per-operation strings joined with "; ". -/
def claimOperationSummary (ops : List BulkEditOperation) : String :=
  String.intercalate "; " (ops.filterMap claimSummaryItem)

/-- Uppercase the first character and leave every other character unchanged —
the sentence-case segment transform exactly as the claim words it. -/
def upperFirst (s : String) : String :=
  match s.data with
  | [] => ""
  | c :: cs => String.mk (c.toUpper :: cs)

/-- Sentence-case as the claim states it: split on ".", drop segments that
are empty after trimming, capitalize the first letter of each remaining
trimmed segment leaving its other characters unchanged, rejoin with ". ". -/
def claimSentenceCase (text : String) : String :=
  String.intercalate ". "
    (((pySplitDot text).filter (fun s => pyStrip s ≠ "")).map
      (fun s => upperFirst (pyStrip s)))

/-- Sentence-case as amended: like claimSentenceCase, but each kept trimmed
segment is capitalized Python-style — first character uppercased and all its
remaining characters lowercased. -/
def amendedSentenceCase (text : String) : String :=
  String.intercalate ". "
    ((pySplitDot text).filterMap (fun seg =>
      if pyStrip seg = "" then none else some (pyCapitalize (pyStrip seg))))

/-- The case_convert/sentence operation. -/
def sentenceOp : BulkEditOperation :=
  { operation_type := "case_convert", case_type := some "sentence" }

/-! ### Concrete states used to instantiate the theorems -/

/-- A database holding a single caption with an empty ledger. -/
def dbOneCaption : DB :=
  { files := [10]
    captionSets := [1]
    captions := [{ id := 1, caption_set_id := 1, file_id := 10, text := "a cat",
                   source := "manual", vision_model := none,
                   quality_score := none, quality_flags := none }]
    versions := []
    nextCaptionId := 2
    nextVersionId := 1 }

/-- Caption A of the bulk-rollback scoping scenario: its ledger tip is a
bulk_edit snapshot. -/
def capA : Caption :=
  { id := 1, caption_set_id := 1, file_id := 10, text := "A photo of old A",
    source := "manual", vision_model := none, quality_score := none,
    quality_flags := none }

/-- Caption B of the bulk-rollback scoping scenario: its ledger tip is a
manual_edit snapshot. -/
def capB : Caption :=
  { id := 2, caption_set_id := 1, file_id := 11, text := "new B",
    source := "manual", vision_model := none, quality_score := none,
    quality_flags := none }

/-- Ledger tip of caption A (operation bulk_edit, storing the pre-edit
text). -/
def verA : CaptionVersion :=
  { id := 1, caption_id := 1, version_number := 1, text := "old A",
    operation := "bulk_edit", operation_description := some "Prepend \x27A photo of \x27",
    source := some "generated", vision_model := none, quality_score := none,
    quality_flags := none }

/-- Ledger tip of caption B (operation manual_edit). -/
def verB : CaptionVersion :=
  { id := 2, caption_id := 2, version_number := 1, text := "old B",
    operation := "manual_edit", operation_description := none,
    source := some "manual", vision_model := none, quality_score := none,
    quality_flags := none }

/-- The two-caption database of the bulk-rollback scoping scenario. -/
def dbPair : DB :=
  { files := [10, 11]
    captionSets := [1]
    captions := [capA, capB]
    versions := [verA, verB]
    nextCaptionId := 3
    nextVersionId := 3 }

/-- A validated operation list exercising the summary builder (the prepend
text is longer than 20 characters). -/
def exSummaryOps : List BulkEditOperation :=
  [{ operation_type := "prepend", text := some "A photo of quite a long prefix" },
   { operation_type := "find_replace", find := some "cat", replace := some "dog" },
   { operation_type := "trim" },
   { operation_type := "case_convert", case_type := some "sentence" },
   { operation_type := "remove_pattern", pattern := some "!!" }]

/-- An operation list whose second operation is missing its required field
(find_replace without find). -/
def exInvalidOps : List BulkEditOperation :=
  [{ operation_type := "append", text := some "!" },
   { operation_type := "find_replace", replace := some "dog" }]

/-- The bulk-edit request of the round-trip scenario: prepend "A photo of ". -/
def prependPhotoReq : BulkEditRequest :=
  ⟨[{ operation_type := "prepend", text := some "A photo of " }]⟩

/-! ### List and query lemmas -/

theorem find?_eq_filter_head? {α : Type} (p : α → Bool) (l : List α) :
    l.find? p = (l.filter p).head? := by
  induction l with
  | nil => rfl
  | cons a l ih =>
    by_cases h : p a
    · rw [List.find?_cons_of_pos _ h, List.filter_cons_of_pos h]
      rfl
    · rw [List.find?_cons_of_neg _ h, List.filter_cons_of_neg h]
      exact ih

theorem nodup_id_unique {l : List Caption} (h : (l.map (fun c => c.id)).Nodup)
    {x c : Caption} (hx : x ∈ l) (hc : c ∈ l) (he : x.id = c.id) : x = c := by
  induction l with
  | nil => cases hx
  | cons a l ih =>
    simp only [List.map_cons, List.nodup_cons] at h
    rcases List.mem_cons.mp hx with rfl | hx'
    · rcases List.mem_cons.mp hc with rfl | hc'
      · rfl
      · exact absurd (he ▸ List.mem_map_of_mem (fun c => c.id) hc') h.1
    · rcases List.mem_cons.mp hc with rfl | hc'
      · exact absurd (he ▸ List.mem_map_of_mem (fun c => c.id) hx') h.1
      · exact ih h.2 hx' hc'

theorem filter_id_singleton {l : List Caption} (h : (l.map (fun c => c.id)).Nodup)
    {c : Caption} (hc : c ∈ l) :
    l.filter (fun x => x.id == c.id) = [c] := by
  induction l with
  | nil => cases hc
  | cons a l ih =>
    simp only [List.map_cons, List.nodup_cons] at h
    rcases List.mem_cons.mp hc with rfl | hc'
    · have : l.filter (fun x => x.id == c.id) = [] := by
        apply List.filter_eq_nil_iff.mpr
        intro x hx
        simp only [beq_iff_eq]
        intro hxe
        exact h.1 (hxe ▸ List.mem_map_of_mem (fun c => c.id) hx)
      simp [List.filter_cons, this]
    · have hne : a.id ≠ c.id := by
        intro hae
        exact h.1 (hae ▸ List.mem_map_of_mem (fun c => c.id) hc')
      simp [List.filter_cons, hne, ih h.2 hc']

theorem create_version_captions (db : DB) (c : Caption) (o : String)
    (d : Option String) : ((create_version db c o d).1).captions = db.captions := rfl

theorem create_version_versions (db : DB) (c : Caption) (o : String)
    (d : Option String) :
    ((create_version db c o d).1).versions = db.versions ++ [(create_version db c o d).2] := rfl

theorem setCaption_versions (db : DB) (c : Caption) :
    (setCaption db c).versions = db.versions := rfl

theorem setCaption_captions (db : DB) (c : Caption) :
    (setCaption db c).captions
      = db.captions.map (fun x => if x.id == c.id then c else x) := rfl

theorem versionsFor_create_version_self (db : DB) (c : Caption) (o : String)
    (d : Option String) :
    versionsFor (create_version db c o d).1 c.id
      = versionsFor db c.id ++ [(create_version db c o d).2] := by
  simp [versionsFor, create_version, List.filter_append]

theorem versionsFor_create_version_other (db : DB) (c : Caption) (o : String)
    (d : Option String) {cid : Nat} (h : cid ≠ c.id) :
    versionsFor (create_version db c o d).1 cid = versionsFor db cid := by
  simp [versionsFor, create_version, List.filter_append, Ne.symm h]

theorem versionsFor_setCaption (db : DB) (c : Caption) (cid : Nat) :
    versionsFor (setCaption db c) cid = versionsFor db cid := rfl

theorem filter_id_map_update_self (l : List Caption) (c' : Caption) :
    (l.map (fun x => if x.id == c'.id then c' else x)).filter
        (fun x => x.id == c'.id)
      = (l.filter (fun x => x.id == c'.id)).map (fun _ => c') := by
  induction l with
  | nil => rfl
  | cons a l ih =>
    by_cases h : (a.id == c'.id) = true
    · rw [List.map_cons, if_pos h]
      simp only [List.filter_cons]
      rw [if_pos (show (c'.id == c'.id) = true by simp), if_pos h, List.map_cons, ih]
    · rw [List.map_cons, if_neg h]
      simp only [List.filter_cons]
      rw [if_neg h, if_neg h, ih]

theorem filter_id_map_update_other (l : List Caption) (c' : Caption)
    {cid : Nat} (h : cid ≠ c'.id) :
    (l.map (fun x => if x.id == c'.id then c' else x)).filter
        (fun x => x.id == cid)
      = l.filter (fun x => x.id == cid) := by
  induction l with
  | nil => rfl
  | cons a l ih =>
    by_cases ha : (a.id == c'.id) = true
    · have hc : ¬ (c'.id == cid) = true := by simp [Ne.symm h]
      have ha2 : ¬ (a.id == cid) = true := by
        simp only [beq_iff_eq] at ha ⊢
        rw [ha]
        exact Ne.symm h
      rw [List.map_cons, if_pos ha]
      simp only [List.filter_cons]
      rw [if_neg hc, if_neg ha2, ih]
    · by_cases hb : (a.id == cid) = true
      · rw [List.map_cons, if_neg ha]
        simp only [List.filter_cons]
        rw [if_pos hb, if_pos hb, ih]
      · rw [List.map_cons, if_neg ha]
        simp only [List.filter_cons]
        rw [if_neg hb, if_neg hb, ih]

theorem latestOf_fold_mem (l : List CaptionVersion) :
    ∀ (acc : Option CaptionVersion) (u : CaptionVersion),
      l.foldl (fun acc v =>
        match acc with
        | none => some v
        | some u => if u.version_number < v.version_number then some v else some u)
        acc = some u → acc = some u ∨ u ∈ l := by
  induction l with
  | nil => intro acc u h; exact Or.inl h
  | cons v l ih =>
    intro acc u h
    rcases ih _ u h with hstep | hmem
    · cases acc with
      | none =>
        simp only [] at hstep
        exact Or.inr (by simp [← Option.some_inj.mp hstep])
      | some a =>
        simp only [] at hstep
        by_cases hlt : a.version_number < v.version_number
        · rw [if_pos hlt] at hstep
          exact Or.inr (by simp [← Option.some_inj.mp hstep])
        · rw [if_neg hlt] at hstep
          exact Or.inl hstep
    · exact Or.inr (List.mem_cons_of_mem _ hmem)

theorem latestOf_mem {l : List CaptionVersion} {u : CaptionVersion}
    (h : latestOf l = some u) : u ∈ l := by
  rcases latestOf_fold_mem l none u h with h' | h'
  · cases h'
  · exact h'

theorem latestOf_append_max {l : List CaptionVersion} {w : CaptionVersion}
    {n : Nat} (hb : ∀ v ∈ l, v.version_number ≤ n) (hw : n < w.version_number) :
    latestOf (l ++ [w]) = some w := by
  have hstep : latestOf (l ++ [w])
      = match latestOf l with
        | none => some w
        | some u => if u.version_number < w.version_number then some w else some u := by
    simp [latestOf, List.foldl_append]
  rw [hstep]
  cases h : latestOf l with
  | none => rfl
  | some u =>
    have hu : u.version_number < w.version_number :=
      Nat.lt_of_le_of_lt (hb u (latestOf_mem h)) hw
    simp [hu]

/-! ### Bulk-edit loop lemmas -/

theorem applyBulkEditLoop_stable (r : RegexEngine) (ops : List BulkEditOperation)
    (summary : String) :
    ∀ (cs : List Caption) (db : DB) (u s : Nat) (e : List BulkErrorRow)
      (cid : Nat),
      cs.filter (fun x => x.id == cid) = [] →
      versionsFor (applyBulkEditLoop r ops summary cs db u s e).1 cid
          = versionsFor db cid ∧
        ((applyBulkEditLoop r ops summary cs db u s e).1).captions.filter
            (fun x => x.id == cid)
          = db.captions.filter (fun x => x.id == cid) := by
  intro cs
  induction cs with
  | nil => intro db u s e cid _; exact ⟨rfl, rfl⟩
  | cons a rest ih =>
    intro db u s e cid hfil
    have hfa : ¬ (a.id == cid) = true := by
      have := List.filter_eq_nil_iff.mp hfil a (List.mem_cons_self a rest)
      simpa using this
    have hrest : rest.filter (fun x => x.id == cid) = [] := by
      apply List.filter_eq_nil_iff.mpr
      intro x hx
      exact List.filter_eq_nil_iff.mp hfil x (List.mem_cons_of_mem _ hx)
    have hne : cid ≠ a.id := by
      simp only [beq_iff_eq] at hfa
      exact fun h => hfa h.symm
    cases hp : pipelineText r ops a.text with
    | error msg =>
      simp only [applyBulkEditLoop, hp]
      exact ih db u s (e ++ [⟨a.id, a.file_id, msg⟩]) cid hrest
    | ok t =>
      by_cases ht : t ≠ a.text
      · simp only [applyBulkEditLoop, hp, if_pos ht]
        have h2 := ih (setCaption (create_version db a "bulk_edit" (some summary)).1
          { a with text := t, source := "manual" }) (u + 1) s e cid hrest
        rcases h2 with ⟨hv, hc⟩
        constructor
        · rw [hv, versionsFor_setCaption,
            versionsFor_create_version_other db a _ _ hne]
        · rw [hc, setCaption_captions, create_version_captions]
          exact filter_id_map_update_other _ _ hne
      · simp only [applyBulkEditLoop, hp, if_neg ht]
        exact ih db u (s + 1) e cid hrest

theorem applyBulkEditLoop_target (r : RegexEngine) (ops : List BulkEditOperation)
    (summary : String) :
    ∀ (cs : List Caption) (db : DB) (u s : Nat) (e : List BulkErrorRow)
      (c : Caption),
      cs.filter (fun x => x.id == c.id) = [c] →
      db.captions.filter (fun x => x.id == c.id) = [c] →
      ((applyBulkEditLoop r ops summary cs db u s e).1).captions.filter
          (fun x => x.id == c.id) = [bulkEditOutcome r ops c] ∧
        ∃ i, versionsFor (applyBulkEditLoop r ops summary cs db u s e).1 c.id
          = versionsFor db c.id ++
            (if pipelineChanges r ops c then
              [{ id := i, caption_id := c.id,
                 version_number := (versionsFor db c.id).length + 1,
                 text := c.text, operation := "bulk_edit",
                 operation_description := some summary,
                 source := some c.source, vision_model := c.vision_model,
                 quality_score := c.quality_score,
                 quality_flags := c.quality_flags }]
             else []) := by
  intro cs
  induction cs with
  | nil => intro db u s e c hfil; cases hfil
  | cons a rest ih =>
    intro db u s e c hfil hdb
    by_cases ha : (a.id == c.id) = true
    · rw [List.filter_cons_of_pos (p := fun (x : Caption) => x.id == c.id) ha] at hfil
      have hac : a = c := (List.cons_eq_cons.mp hfil).1
      have hrest : rest.filter (fun x => x.id == c.id) = [] :=
        (List.cons_eq_cons.mp hfil).2
      subst hac
      cases hp : pipelineText r ops a.text with
      | error msg =>
        simp only [applyBulkEditLoop, hp]
        have h2 := applyBulkEditLoop_stable r ops summary rest db u s
          (e ++ [⟨a.id, a.file_id, msg⟩]) a.id hrest
        refine ⟨?_, ⟨0, ?_⟩⟩
        · rw [h2.2, hdb]
          simp [bulkEditOutcome, hp]
        · rw [h2.1]
          simp [pipelineChanges, hp]
      | ok t =>
        by_cases ht : t ≠ a.text
        · simp only [applyBulkEditLoop, hp, if_pos ht]
          have h2 := applyBulkEditLoop_stable r ops summary rest
            (setCaption (create_version db a "bulk_edit" (some summary)).1
              { a with text := t, source := "manual" }) (u + 1) s e a.id hrest
          rcases h2 with ⟨hv, hc⟩
          constructor
          · rw [hc, setCaption_captions, create_version_captions]
            have hm := filter_id_map_update_self db.captions
              { a with text := t, source := "manual" }
            rw [hm, hdb]
            simp [bulkEditOutcome, hp, ht]
          · refine ⟨db.nextVersionId, ?_⟩
            rw [hv, versionsFor_setCaption, versionsFor_create_version_self]
            simp [pipelineChanges, hp, ht, create_version]
        · simp only [applyBulkEditLoop, hp, if_neg ht]
          have h2 := applyBulkEditLoop_stable r ops summary rest db u (s + 1) e
            a.id hrest
          simp only [ne_eq, not_not] at ht
          refine ⟨?_, ⟨0, ?_⟩⟩
          · rw [h2.2, hdb]
            simp [bulkEditOutcome, hp, ht]
          · rw [h2.1]
            simp [pipelineChanges, hp, ht]
    · rw [List.filter_cons_of_neg (p := fun (x : Caption) => x.id == c.id) ha] at hfil
      have hne : c.id ≠ a.id := by
        simp only [beq_iff_eq] at ha
        exact fun h => ha h.symm
      cases hp : pipelineText r ops a.text with
      | error msg =>
        simp only [applyBulkEditLoop, hp]
        exact ih db u s (e ++ [⟨a.id, a.file_id, msg⟩]) c hfil hdb
      | ok t =>
        by_cases ht : t ≠ a.text
        · simp only [applyBulkEditLoop, hp, if_pos ht]
          have hne2 : c.id ≠ ({ a with text := t, source := "manual" } : Caption).id := hne
          have hdb2 : (setCaption (create_version db a "bulk_edit" (some summary)).1
              { a with text := t, source := "manual" }).captions.filter
                (fun x => x.id == c.id) = [c] := by
            rw [setCaption_captions, create_version_captions,
              filter_id_map_update_other _ _ hne2]
            exact hdb
          have h2 := ih (setCaption (create_version db a "bulk_edit" (some summary)).1
            { a with text := t, source := "manual" }) (u + 1) s e c hfil hdb2
          rcases h2 with ⟨hc, i, hv⟩
          refine ⟨hc, ⟨i, ?_⟩⟩
          rw [hv, versionsFor_setCaption,
            versionsFor_create_version_other db a _ _ hne]
        · simp only [applyBulkEditLoop, hp, if_neg ht]
          exact ih db u (s + 1) e c hfil hdb

theorem applyBulkEditLoop_updated (r : RegexEngine) (ops : List BulkEditOperation)
    (summary : String) :
    ∀ (cs : List Caption) (db : DB) (u s : Nat) (e : List BulkErrorRow),
      (applyBulkEditLoop r ops summary cs db u s e).2.1
        = u + cs.countP (pipelineChanges r ops) := by
  intro cs
  induction cs with
  | nil => intro db u s e; simp [applyBulkEditLoop]
  | cons a rest ih =>
    intro db u s e
    cases hp : pipelineText r ops a.text with
    | error msg =>
      simp only [applyBulkEditLoop, hp]
      rw [ih, List.countP_cons]
      simp [pipelineChanges, hp]
    | ok t =>
      by_cases ht : t ≠ a.text
      · simp only [applyBulkEditLoop, hp, if_pos ht]
        rw [ih, List.countP_cons]
        simp [pipelineChanges, hp, ht]
        omega
      · simp only [applyBulkEditLoop, hp, if_neg ht]
        rw [ih, List.countP_cons]
        simp only [ne_eq, not_not] at ht
        simp [pipelineChanges, hp, ht]

theorem previewLoop_ok_length (r : RegexEngine) (ops : List BulkEditOperation) :
    ∀ (cs : List Caption) (acc aff : List CaptionPreviewRow),
      previewLoop r ops cs acc = .ok aff →
      aff.length = acc.length + cs.countP (pipelineChanges r ops) := by
  intro cs
  induction cs with
  | nil =>
    intro acc aff h
    simp only [previewLoop] at h
    cases h
    simp
  | cons a rest ih =>
    intro acc aff h
    cases hp : pipelineText r ops a.text with
    | error msg =>
      simp only [previewLoop, hp] at h
      cases h
    | ok t =>
      by_cases ht : t ≠ a.text
      · simp only [previewLoop, hp, if_pos ht] at h
        have := ih _ _ h
        rw [this, List.countP_cons]
        simp [pipelineChanges, hp, ht]
        omega
      · simp only [previewLoop, hp, if_neg ht] at h
        have := ih _ _ h
        rw [this, List.countP_cons]
        simp only [ne_eq, not_not] at ht
        simp [pipelineChanges, hp, ht]

/-! ### Bulk-rollback loop lemmas -/

theorem latestVersion_congr {db db' : DB} {cid : Nat}
    (h : versionsFor db' cid = versionsFor db cid) :
    latestVersion db' cid = latestVersion db cid := by
  simp [latestVersion, h]

theorem bulkRollbackOutcome_congr {db db' : DB} (c : Caption)
    (h : versionsFor db' c.id = versionsFor db c.id) :
    bulkRollbackOutcome db' c = bulkRollbackOutcome db c := by
  simp [bulkRollbackOutcome, latestVersion_congr h]

theorem tipIsBulkEdit_congr {db db' : DB} (c : Caption)
    (h : versionsFor db' c.id = versionsFor db c.id) :
    tipIsBulkEdit db' c = tipIsBulkEdit db c := by
  simp [tipIsBulkEdit, latestVersion_congr h]

theorem applyBulkRollbackLoop_stable :
    ∀ (cs : List Caption) (db : DB) (rb sk : Nat) (cid : Nat),
      cs.filter (fun x => x.id == cid) = [] →
      versionsFor (applyBulkRollbackLoop cs db rb sk).1 cid
          = versionsFor db cid ∧
        ((applyBulkRollbackLoop cs db rb sk).1).captions.filter
            (fun x => x.id == cid)
          = db.captions.filter (fun x => x.id == cid) := by
  intro cs
  induction cs with
  | nil => intro db rb sk cid _; exact ⟨rfl, rfl⟩
  | cons a rest ih =>
    intro db rb sk cid hfil
    have hfa : ¬ (a.id == cid) = true := by
      have := List.filter_eq_nil_iff.mp hfil a (List.mem_cons_self a rest)
      simpa using this
    have hrest : rest.filter (fun x => x.id == cid) = [] := by
      apply List.filter_eq_nil_iff.mpr
      intro x hx
      exact List.filter_eq_nil_iff.mp hfil x (List.mem_cons_of_mem _ hx)
    have hne : cid ≠ a.id := by
      simp only [beq_iff_eq] at hfa
      exact fun h => hfa h.symm
    cases hl : latestVersion db a.id with
    | none =>
      simp only [applyBulkRollbackLoop, hl]
      exact ih db rb (sk + 1) cid hrest
    | some v =>
      by_cases hop : v.operation = "bulk_edit"
      · simp only [applyBulkRollbackLoop, hl, if_pos hop]
        have h2 := ih (setCaption (create_version db a "bulk_rollback"
          (some ("Rolled back bulk edit: " ++ pyStrOpt v.operation_description))).1
          (rollbackRestore a v)) (rb + 1) sk cid hrest
        rcases h2 with ⟨hv, hc⟩
        have hne2 : cid ≠ (rollbackRestore a v).id := hne
        constructor
        · rw [hv, versionsFor_setCaption,
            versionsFor_create_version_other db a _ _ hne]
        · rw [hc, setCaption_captions, create_version_captions,
            filter_id_map_update_other _ _ hne2]
      · simp only [applyBulkRollbackLoop, hl, if_neg hop]
        exact ih db rb (sk + 1) cid hrest

theorem applyBulkRollbackLoop_target :
    ∀ (cs : List Caption) (db : DB) (rb sk : Nat) (c : Caption),
      cs.filter (fun x => x.id == c.id) = [c] →
      db.captions.filter (fun x => x.id == c.id) = [c] →
      ((applyBulkRollbackLoop cs db rb sk).1).captions.filter
          (fun x => x.id == c.id) = [bulkRollbackOutcome db c] ∧
        ∃ i d, versionsFor (applyBulkRollbackLoop cs db rb sk).1 c.id
          = versionsFor db c.id ++
            (if tipIsBulkEdit db c then
              [{ id := i, caption_id := c.id,
                 version_number := (versionsFor db c.id).length + 1,
                 text := c.text, operation := "bulk_rollback",
                 operation_description := d,
                 source := some c.source, vision_model := c.vision_model,
                 quality_score := c.quality_score,
                 quality_flags := c.quality_flags }]
             else []) := by
  intro cs
  induction cs with
  | nil => intro db rb sk c hfil; cases hfil
  | cons a rest ih =>
    intro db rb sk c hfil hdb
    by_cases ha : (a.id == c.id) = true
    · rw [List.filter_cons_of_pos (p := fun (x : Caption) => x.id == c.id) ha] at hfil
      have hac : a = c := (List.cons_eq_cons.mp hfil).1
      have hrest : rest.filter (fun x => x.id == c.id) = [] :=
        (List.cons_eq_cons.mp hfil).2
      subst hac
      cases hl : latestVersion db a.id with
      | none =>
        simp only [applyBulkRollbackLoop, hl]
        have h2 := applyBulkRollbackLoop_stable rest db rb (sk + 1) a.id hrest
        refine ⟨?_, ⟨0, none, ?_⟩⟩
        · rw [h2.2, hdb]
          simp [bulkRollbackOutcome, hl]
        · rw [h2.1]
          simp [tipIsBulkEdit, hl]
      | some v =>
        by_cases hop : v.operation = "bulk_edit"
        · simp only [applyBulkRollbackLoop, hl, if_pos hop]
          have h2 := applyBulkRollbackLoop_stable rest
            (setCaption (create_version db a "bulk_rollback"
              (some ("Rolled back bulk edit: " ++ pyStrOpt v.operation_description))).1
              (rollbackRestore a v)) (rb + 1) sk a.id hrest
          rcases h2 with ⟨hv, hc⟩
          constructor
          · rw [hc, setCaption_captions, create_version_captions]
            have hm := filter_id_map_update_self db.captions (rollbackRestore a v)
            have hmm : (db.captions.map (fun x =>
                if x.id == (rollbackRestore a v).id then rollbackRestore a v else x)).filter
                  (fun x => x.id == a.id)
                = (db.captions.filter (fun x => x.id == a.id)).map
                    (fun _ => rollbackRestore a v) := hm
            rw [hmm, hdb]
            simp [bulkRollbackOutcome, hl, hop]
          · refine ⟨db.nextVersionId,
              some ("Rolled back bulk edit: " ++ pyStrOpt v.operation_description), ?_⟩
            rw [hv, versionsFor_setCaption, versionsFor_create_version_self]
            simp [tipIsBulkEdit, hl, hop, create_version]
        · simp only [applyBulkRollbackLoop, hl, if_neg hop]
          have h2 := applyBulkRollbackLoop_stable rest db rb (sk + 1) a.id hrest
          refine ⟨?_, ⟨0, none, ?_⟩⟩
          · rw [h2.2, hdb]
            simp [bulkRollbackOutcome, hl, hop]
          · rw [h2.1]
            simp [tipIsBulkEdit, hl, hop]
    · rw [List.filter_cons_of_neg (p := fun (x : Caption) => x.id == c.id) ha] at hfil
      have hne : c.id ≠ a.id := by
        simp only [beq_iff_eq] at ha
        exact fun h => ha h.symm
      cases hl : latestVersion db a.id with
      | none =>
        simp only [applyBulkRollbackLoop, hl]
        exact ih db rb (sk + 1) c hfil hdb
      | some v =>
        by_cases hop : v.operation = "bulk_edit"
        · simp only [applyBulkRollbackLoop, hl, if_pos hop]
          have hne2 : c.id ≠ (rollbackRestore a v).id := hne
          have hvs : versionsFor (setCaption (create_version db a "bulk_rollback"
              (some ("Rolled back bulk edit: " ++ pyStrOpt v.operation_description))).1
              (rollbackRestore a v)) c.id = versionsFor db c.id := by
            rw [versionsFor_setCaption,
              versionsFor_create_version_other db a _ _ hne]
          have hdb2 : (setCaption (create_version db a "bulk_rollback"
              (some ("Rolled back bulk edit: " ++ pyStrOpt v.operation_description))).1
              (rollbackRestore a v)).captions.filter
                (fun x => x.id == c.id) = [c] := by
            rw [setCaption_captions, create_version_captions,
              filter_id_map_update_other _ _ hne2]
            exact hdb
          have h2 := ih (setCaption (create_version db a "bulk_rollback"
            (some ("Rolled back bulk edit: " ++ pyStrOpt v.operation_description))).1
            (rollbackRestore a v)) (rb + 1) sk c hfil hdb2
          rcases h2 with ⟨hc, i, d, hvv⟩
          refine ⟨?_, ⟨i, d, ?_⟩⟩
          · rw [hc, bulkRollbackOutcome_congr c hvs]
          · rw [hvv, hvs, tipIsBulkEdit_congr c hvs]
        · simp only [applyBulkRollbackLoop, hl, if_neg hop]
          exact ih db rb (sk + 1) c hfil hdb

theorem applyBulkRollbackLoop_counts :
    ∀ (cs : List Caption) (db : DB) (rb sk : Nat),
      (cs.map (fun c => c.id)).Nodup →
      (applyBulkRollbackLoop cs db rb sk).2.1
          = rb + cs.countP (tipIsBulkEdit db) ∧
        (applyBulkRollbackLoop cs db rb sk).2.2
          = sk + cs.countP (fun c => !tipIsBulkEdit db c) := by
  intro cs
  induction cs with
  | nil => intro db rb sk _; simp [applyBulkRollbackLoop]
  | cons a rest ih =>
    intro db rb sk hnd
    simp only [List.map_cons, List.nodup_cons] at hnd
    have hrest_ne : ∀ x ∈ rest, x.id ≠ a.id := by
      intro x hx he
      exact hnd.1 (he ▸ List.mem_map_of_mem (fun c => c.id) hx)
    cases hl : latestVersion db a.id with
    | none =>
      simp only [applyBulkRollbackLoop, hl]
      have h2 := ih db rb (sk + 1) hnd.2
      constructor
      · rw [h2.1, List.countP_cons]
        simp [tipIsBulkEdit, hl]
      · rw [h2.2, List.countP_cons]
        simp [tipIsBulkEdit, hl]
        omega
    | some v =>
      by_cases hop : v.operation = "bulk_edit"
      · simp only [applyBulkRollbackLoop, hl, if_pos hop]
        set db2 := setCaption (create_version db a "bulk_rollback"
          (some ("Rolled back bulk edit: " ++ pyStrOpt v.operation_description))).1
          (rollbackRestore a v) with hdb2
        have h2 := ih db2 (rb + 1) sk hnd.2
        have hcong : ∀ q ∈ rest, tipIsBulkEdit db2 q = tipIsBulkEdit db q := by
          intro q hq
          apply tipIsBulkEdit_congr
          rw [hdb2, versionsFor_setCaption,
            versionsFor_create_version_other db a _ _ (hrest_ne q hq)]
        constructor
        · rw [h2.1, List.countP_cons]
          have := List.countP_congr (l := rest)
            (p := tipIsBulkEdit db2) (q := tipIsBulkEdit db)
            (fun x hx => by rw [hcong x hx])
          rw [this]
          simp [tipIsBulkEdit, hl, hop]
          omega
        · rw [h2.2, List.countP_cons]
          have := List.countP_congr (l := rest)
            (p := fun c => !tipIsBulkEdit db2 c) (q := fun c => !tipIsBulkEdit db c)
            (fun x hx => by simp only [hcong x hx])
          rw [this]
          simp [tipIsBulkEdit, hl, hop]
      · simp only [applyBulkRollbackLoop, hl, if_neg hop]
        have h2 := ih db rb (sk + 1) hnd.2
        constructor
        · rw [h2.1, List.countP_cons]
          simp [tipIsBulkEdit, hl, hop]
        · rw [h2.2, List.countP_cons]
          simp [tipIsBulkEdit, hl, hop]
          omega

/-! ### Ledger invariant lemmas -/

theorem versionNums_length (db : DB) (cid : Nat) :
    (versionNums db cid).length = (versionsFor db cid).length := by
  simp [versionNums]

theorem versionNums_create_version_self (db : DB) (c : Caption) (o : String)
    (d : Option String) :
    versionNums (create_version db c o d).1 c.id
      = versionNums db c.id ++ [(versionsFor db c.id).length + 1] := by
  unfold versionNums
  rw [versionsFor_create_version_self]
  simp [create_version]

theorem versionNums_create_version_other (db : DB) (c : Caption) (o : String)
    (d : Option String) {cid : Nat} (h : cid ≠ c.id) :
    versionNums (create_version db c o d).1 cid = versionNums db cid := by
  simp [versionNums, versionsFor_create_version_other db c o d h]

theorem versionNums_setCaption (db : DB) (c : Caption) (cid : Nat) :
    versionNums (setCaption db c) cid = versionNums db cid := rfl

theorem ledgerWF_create_version (db : DB) (c : Caption) (o : String)
    (d : Option String) (h : LedgerWF db) : LedgerWF (create_version db c o d).1 := by
  intro cid
  by_cases hc : cid = c.id
  · subst hc
    rw [versionNums_create_version_self]
    rcases h c.id with ⟨hnd, hb⟩
    have hlen : (versionNums db c.id).length = (versionsFor db c.id).length :=
      versionNums_length db c.id
    constructor
    · rw [List.nodup_append]
      refine ⟨hnd, List.nodup_singleton _, ?_⟩
      intro n hn hn'
      have := (hb n hn).2
      have hmem : n = (versionsFor db c.id).length + 1 := by simpa using hn'
      omega
    · intro n hn
      rcases List.mem_append.mp hn with hn' | hn'
      · have := hb n hn'
        simp only [List.length_append, List.length_singleton]
        omega
      · have : n = (versionsFor db c.id).length + 1 := by simpa using hn'
        simp only [List.length_append, List.length_singleton]
        omega
  · rw [versionNums_create_version_other db c o d hc]
    exact h cid

theorem ledgerWF_setCaption (db : DB) (c : Caption) (h : LedgerWF db) :
    LedgerWF (setCaption db c) := h

/-- The extension order on ledger states: old rows are preserved, in place,
and new rows only appended. -/
def LedgerExtends (db db' : DB) : Prop :=
  ∃ tail, db'.versions = db.versions ++ tail

theorem ledgerExtends_refl (db : DB) : LedgerExtends db db := ⟨[], by simp⟩

theorem ledgerExtends_trans {db1 db2 db3 : DB} (h1 : LedgerExtends db1 db2)
    (h2 : LedgerExtends db2 db3) : LedgerExtends db1 db3 := by
  rcases h1 with ⟨t1, ht1⟩
  rcases h2 with ⟨t2, ht2⟩
  exact ⟨t1 ++ t2, by rw [ht2, ht1, List.append_assoc]⟩

theorem ledgerExtends_create_version (db : DB) (c : Caption) (o : String)
    (d : Option String) : LedgerExtends db (create_version db c o d).1 :=
  ⟨[(create_version db c o d).2], rfl⟩

theorem ledgerExtends_setCaption (db : DB) (c : Caption) :
    LedgerExtends db (setCaption db c) := ⟨[], by simp [setCaption]⟩

theorem applyBulkEditLoop_ledger (r : RegexEngine) (ops : List BulkEditOperation)
    (summary : String) :
    ∀ (cs : List Caption) (db : DB) (u s : Nat) (e : List BulkErrorRow),
      (LedgerWF db → LedgerWF (applyBulkEditLoop r ops summary cs db u s e).1) ∧
        LedgerExtends db (applyBulkEditLoop r ops summary cs db u s e).1 := by
  intro cs
  induction cs with
  | nil => intro db u s e; exact ⟨fun h => h, ledgerExtends_refl db⟩
  | cons a rest ih =>
    intro db u s e
    cases hp : pipelineText r ops a.text with
    | error msg =>
      simp only [applyBulkEditLoop, hp]
      exact ih db u s (e ++ [⟨a.id, a.file_id, msg⟩])
    | ok t =>
      by_cases ht : t ≠ a.text
      · simp only [applyBulkEditLoop, hp, if_pos ht]
        set db2 := setCaption (create_version db a "bulk_edit" (some summary)).1
          { a with text := t, source := "manual" } with hdb2
        have hih := ih db2 (u + 1) s e
        refine ⟨fun h => hih.1 ?_, ?_⟩
        · exact ledgerWF_setCaption _ _ (ledgerWF_create_version db a _ _ h)
        · exact ledgerExtends_trans
            (ledgerExtends_trans (ledgerExtends_create_version db a _ _)
              (ledgerExtends_setCaption _ _)) hih.2
      · simp only [applyBulkEditLoop, hp, if_neg ht]
        exact ih db u (s + 1) e

theorem applyBulkRollbackLoop_ledger :
    ∀ (cs : List Caption) (db : DB) (rb sk : Nat),
      (LedgerWF db → LedgerWF (applyBulkRollbackLoop cs db rb sk).1) ∧
        LedgerExtends db (applyBulkRollbackLoop cs db rb sk).1 := by
  intro cs
  induction cs with
  | nil => intro db rb sk; exact ⟨fun h => h, ledgerExtends_refl db⟩
  | cons a rest ih =>
    intro db rb sk
    cases hl : latestVersion db a.id with
    | none =>
      simp only [applyBulkRollbackLoop, hl]
      exact ih db rb (sk + 1)
    | some v =>
      by_cases hop : v.operation = "bulk_edit"
      · simp only [applyBulkRollbackLoop, hl, if_pos hop]
        set db2 := setCaption (create_version db a "bulk_rollback"
          (some ("Rolled back bulk edit: " ++ pyStrOpt v.operation_description))).1
          (rollbackRestore a v) with hdb2
        have hih := ih db2 (rb + 1) sk
        refine ⟨fun h => hih.1 ?_, ?_⟩
        · exact ledgerWF_setCaption _ _ (ledgerWF_create_version db a _ _ h)
        · exact ledgerExtends_trans
            (ledgerExtends_trans (ledgerExtends_create_version db a _ _)
              (ledgerExtends_setCaption _ _)) hih.2
      · simp only [applyBulkRollbackLoop, hl, if_neg hop]
        exact ih db rb (sk + 1)

theorem step_ledger (r : RegexEngine) (op : SvcOp) (db : DB) :
    (LedgerWF db → LedgerWF (step r op db)) ∧ LedgerExtends db (step r op db) := by
  cases op with
  | updateCaption cid t =>
    simp only [step, update_caption]
    cases hg : getCaption db cid with
    | none => exact ⟨fun h => h, ledgerExtends_refl db⟩
    | some c =>
      refine ⟨fun h => ?_, ?_⟩
      · exact ledgerWF_setCaption _ _ (ledgerWF_create_version db c _ _ h)
      · exact ledgerExtends_trans (ledgerExtends_create_version db c _ _)
          (ledgerExtends_setCaption _ _)
  | upsert sid data cv =>
    simp only [step, create_or_update_caption]
    by_cases hf : data.file_id ∈ db.files
    · simp only [if_pos hf]
      cases hg : getCaptionForFile db sid data.file_id with
      | some c =>
        by_cases hcv : cv
        · subst hcv
          simp only [if_pos trivial]
          refine ⟨fun h => ?_, ?_⟩
          · exact ledgerWF_setCaption _ _ (ledgerWF_create_version db c _ _ h)
          · exact ledgerExtends_trans (ledgerExtends_create_version db c _ _)
              (ledgerExtends_setCaption _ _)
        · simp only [Bool.not_eq_true] at hcv
          subst hcv
          simp only [Bool.false_eq_true, if_false]
          refine ⟨fun h => ledgerWF_setCaption _ _ h, ledgerExtends_setCaption _ _⟩
      | none =>
        refine ⟨fun h => ?_, ⟨[], by simp⟩⟩
        intro cid
        exact h cid
    · simp only [if_neg hf]
      exact ⟨fun h => h, ledgerExtends_refl db⟩
  | bulkEdit sid ops =>
    simp only [step, apply_bulk_edit]
    exact applyBulkEditLoop_ledger r ops _ _ db 0 0 []
  | rollback cid vid =>
    simp only [step, rollback_caption]
    cases hg : getCaption db cid with
    | none => exact ⟨fun h => h, ledgerExtends_refl db⟩
    | some c =>
      cases hv : db.versions.find? (fun v => v.id == vid && v.caption_id == cid) with
      | none => exact ⟨fun h => h, ledgerExtends_refl db⟩
      | some v =>
        refine ⟨fun h => ?_, ?_⟩
        · exact ledgerWF_setCaption _ _ (ledgerWF_create_version db c _ _ h)
        · exact ledgerExtends_trans (ledgerExtends_create_version db c _ _)
            (ledgerExtends_setCaption _ _)
  | bulkRollback sid =>
    simp only [step, apply_bulk_rollback]
    exact applyBulkRollbackLoop_ledger _ db 0 0

theorem nums_exactly {l : List Nat} (hnd : l.Nodup)
    (hb : ∀ n ∈ l, 1 ≤ n ∧ n ≤ l.length) :
    ∀ n, n ∈ l ↔ (1 ≤ n ∧ n ≤ l.length) := by
  have hsub : l.toFinset ⊆ Finset.Icc 1 l.length := by
    intro n hn
    rw [Finset.mem_Icc]
    exact hb n (List.mem_toFinset.mp hn)
  have hcard : (Finset.Icc 1 l.length).card = l.length := by
    rw [Nat.card_Icc]
    omega
  have hcard2 : l.toFinset.card = l.length := List.toFinset_card_of_nodup hnd
  have heq : l.toFinset = Finset.Icc 1 l.length :=
    Finset.eq_of_subset_of_card_le hsub (by omega)
  intro n
  rw [← List.mem_toFinset, heq, Finset.mem_Icc]

/-! ### Summary and sentence-case lemmas -/

theorem trunc_eq (t : String) :
    pySlice t 20 ++ (if t.length > 20 then "..." else "") = claimTruncate t := by
  unfold claimTruncate
  by_cases h : t.length > 20
  · rw [if_pos h, if_pos h]
  · rw [if_neg h, if_neg h]
    have hle : t.data.length ≤ 20 := by
      have h20 : t.length ≤ 20 := by omega
      exact h20
    have hsl : pySlice t 20 = t := by
      simp [pySlice, List.take_of_length_le hle]
    rw [hsl, String.append_empty]

theorem summarizeOperation_eq_claim (op : BulkEditOperation)
    (h : (op.operation_type = "prepend" ∨ op.operation_type = "append") →
      op.text ≠ none) :
    summarizeOperation op = claimSummaryItem op := by
  by_cases h1 : op.operation_type = "prepend"
  · cases htx : op.text with
    | none => exact absurd htx (h (Or.inl h1))
    | some t =>
      simp [summarizeOperation, claimSummaryItem, h1, htx, ← trunc_eq,
        String.append_assoc]
  · by_cases h2 : op.operation_type = "append"
    · cases htx : op.text with
      | none => exact absurd htx (h (Or.inr h2))
      | some t =>
        simp [summarizeOperation, claimSummaryItem, h1, h2, htx, ← trunc_eq,
          String.append_assoc]
    · simp [summarizeOperation, claimSummaryItem, h1, h2]

theorem filterMap_summary_eq :
    ∀ (ops : List BulkEditOperation), validate_operations ops = .ok () →
      ops.filterMap summarizeOperation = ops.filterMap claimSummaryItem := by
  intro ops
  induction ops with
  | nil => intro _; rfl
  | cons op rest ih =>
    intro h
    by_cases c1 : ((op.operation_type == "prepend" || op.operation_type == "append")
        && optFalsy op.text) = true
    · simp only [validate_operations, if_pos c1] at h
      cases h
    · simp only [validate_operations, if_neg c1] at h
      by_cases c2 : (op.operation_type == "find_replace"
          && (optFalsy op.find || op.replace == none)) = true
      · rw [if_pos c2] at h
        cases h
      · rw [if_neg c2] at h
        by_cases c3 : (op.operation_type == "case_convert" && optFalsy op.case_type) = true
        · rw [if_pos c3] at h
          cases h
        · rw [if_neg c3] at h
          by_cases c4 : (op.operation_type == "remove_pattern" && optFalsy op.pattern) = true
          · rw [if_pos c4] at h
            cases h
          · rw [if_neg c4] at h
            have hop : summarizeOperation op = claimSummaryItem op := by
              apply summarizeOperation_eq_claim
              intro hty htx
              apply c1
              rcases hty with hty | hty <;>
                simp [hty, optFalsy, htx]
            rw [List.filterMap_cons, List.filterMap_cons, hop, ih h]

/-- C9: for every validated operation list, the human-readable operation
summary equals the description in the claim — each operation kind formatted with
its key parameters, literal text fields longer than 20 characters truncated to
their first 20 characters plus an ellipsis marker, items joined with "; ". -/
theorem operation_summary_matches_claim (ops : List BulkEditOperation)
    (h : validate_operations ops = .ok ()) :
    build_operation_summary ops = claimOperationSummary ops := by
  unfold build_operation_summary claimOperationSummary
  rw [filterMap_summary_eq ops h]

theorem operation_summary_matches_claim_witness :
    validate_operations exSummaryOps = .ok () ∧
      build_operation_summary exSummaryOps = claimOperationSummary exSummaryOps :=
  ⟨by rfl, operation_summary_matches_claim exSummaryOps (by rfl)⟩

theorem filterMap_sentence_eq (l : List String) :
    l.filterMap (fun seg =>
        if pyStrip seg = "" then none else some (pyCapitalize (pyStrip seg)))
      = (l.filter (fun s => pyStrip s ≠ "")).map (fun s => pyCapitalize (pyStrip s)) := by
  induction l with
  | nil => rfl
  | cons a l ih =>
    by_cases h : pyStrip a = ""
    · simp [List.filterMap_cons, List.filter_cons, h, ih]
    · simp [List.filterMap_cons, List.filter_cons, h, ih]

/-- C8 (amended): case_convert/sentence splits on ".", drops segments empty
after trimming, applies Python capitalization to each remaining trimmed
segment — first character uppercased and the remaining characters lowercased —
and rejoins with ". ". -/
theorem sentence_case_spec (r : RegexEngine) (text : String) :
    apply_operation r text sentenceOp = .ok (amendedSentenceCase text) := by
  unfold amendedSentenceCase
  rw [filterMap_sentence_eq]
  simp [apply_operation, sentenceOp]

/-- C8 (counterexample): the claim says the characters after the first letter
of each segment are unchanged, but Python str.capitalize lowercases them: on
"hello WORLD" the code yields "Hello world", the reading in the claim yields
"Hello WORLD". -/
theorem sentence_case_counterexample :
    apply_operation idRegexEngine "hello WORLD" sentenceOp = .ok "Hello world" ∧
      claimSentenceCase "hello WORLD" = "Hello WORLD" ∧
      ("Hello world" : String) ≠ "Hello WORLD" := by
  refine ⟨by rfl, by rfl, by decide⟩

/-! ### Validation fail-fast lemmas -/

theorem validate_rejects :
    ∀ (ops : List BulkEditOperation) (op : BulkEditOperation), op ∈ ops →
      MissingRequiredField op → ∃ m, validate_operations ops = .error m := by
  intro ops
  induction ops with
  | nil => intro op hmem; cases hmem
  | cons a rest ih =>
    intro op hmem hmiss
    by_cases c1 : ((a.operation_type == "prepend" || a.operation_type == "append")
        && optFalsy a.text) = true
    · exact ⟨_, by simp only [validate_operations, if_pos c1]; rfl⟩
    · by_cases c2 : (a.operation_type == "find_replace"
          && (optFalsy a.find || a.replace == none)) = true
      · exact ⟨_, by simp only [validate_operations, if_neg c1, if_pos c2]; rfl⟩
      · by_cases c3 : (a.operation_type == "case_convert" && optFalsy a.case_type) = true
        · exact ⟨_, by
            simp only [validate_operations, if_neg c1, if_neg c2, if_pos c3]; rfl⟩
        · by_cases c4 : (a.operation_type == "remove_pattern" && optFalsy a.pattern) = true
          · exact ⟨_, by
              simp only [validate_operations, if_neg c1, if_neg c2, if_neg c3,
                if_pos c4]
              rfl⟩
          · rcases List.mem_cons.mp hmem with rfl | hmem'
            · exfalso
              rcases hmiss with ⟨hty, htx⟩ | ⟨hty, hfr⟩ | ⟨hty, hct⟩ | ⟨hty, hpt⟩
              · apply c1
                rcases hty with hty | hty <;> simp [hty, optFalsy, htx]
              · rcases hfr with hf | hr
                · apply c2
                  simp [hty, optFalsy, hf]
                · apply c2
                  simp [hty, optFalsy, hr]
              · apply c3
                simp [hty, optFalsy, hct]
              · apply c4
                simp [hty, optFalsy, hpt]
            · rcases ih op hmem' hmiss with ⟨m, hm⟩
              exact ⟨m, by
                simp only [validate_operations, if_neg c1, if_neg c2, if_neg c3, if_neg c4]
                exact hm⟩

/-- C6: a bulk-edit request containing an operation that is missing the
required field for its kind fails with the InvalidOperation error kind before
any caption is read or modified — the database comes back exactly as it was
and no service code runs. -/
theorem bulk_edit_validation_fail_fast (r : RegexEngine) (db : DB) (sid : Nat)
    (ops : List BulkEditOperation) (op : BulkEditOperation) (hmem : op ∈ ops)
    (hmiss : MissingRequiredField op) :
    ∃ m, bulkEditApplyEndpoint r db sid ops = (db, .error (.invalidOperation m)) := by
  rcases validate_rejects ops op hmem hmiss with ⟨m, hm⟩
  exact ⟨m, by simp only [bulkEditApplyEndpoint, hm]⟩

theorem bulk_edit_validation_fail_fast_witness :
    ({ operation_type := "find_replace", replace := some "dog" }
          : BulkEditOperation) ∈ exInvalidOps ∧
      MissingRequiredField
        ({ operation_type := "find_replace", replace := some "dog" }
          : BulkEditOperation) ∧
      ∃ m, bulkEditApplyEndpoint idRegexEngine dbOneCaption 1 exInvalidOps
        = (dbOneCaption, .error (.invalidOperation m)) :=
  ⟨by decide, by decide,
    bulk_edit_validation_fail_fast idRegexEngine dbOneCaption 1 exInvalidOps
      { operation_type := "find_replace", replace := some "dog" }
      (by decide) (by decide)⟩

/-! ### Single-caption rollback error handling -/

/-- C7 (counterexample): with the caption present but the requested version
absent from its ledger, the rollback endpoint answers 400 Bad Request (the
ValueError path), not the claimed NotFound kind, and leaves the state
untouched. -/
theorem rollback_version_absent_counterexample :
    (getCaption dbOneCaption 1).isSome = true ∧
      dbOneCaption.versions.find? (fun v => v.id == 99 && v.caption_id == 1) = none ∧
      rollbackCaptionEndpoint dbOneCaption 1 99
        = (dbOneCaption, .error (.badRequest "Version not found: 99")) := by
  refine ⟨by rfl, by rfl, by rfl⟩

/-- C7 (amended): rollback(captionId, versionId) fails with the NotFound error
kind when the caption is absent, but with the invalid-input (400 Bad Request)
error kind — not NotFound — when the caption exists and the version scoped to
it is absent; in both failure cases the database is returned unchanged, so the
caption and its ledger are untouched. -/
theorem rollback_error_cases (db : DB) (cid vid : Nat) :
    (getCaption db cid = none →
      rollbackCaptionEndpoint db cid vid
        = (db, .error (.notFound "Caption not found"))) ∧
    (∀ c, getCaption db cid = some c →
      db.versions.find? (fun v => v.id == vid && v.caption_id == cid) = none →
      rollbackCaptionEndpoint db cid vid
        = (db, .error (.badRequest ("Version not found: " ++ toString vid)))) := by
  constructor
  · intro h
    simp only [rollbackCaptionEndpoint, rollback_caption, h]
  · intro c hc hv
    simp only [rollbackCaptionEndpoint, rollback_caption, hc, hv]

theorem rollback_error_cases_witness :
    rollbackCaptionEndpoint dbOneCaption 5 99
        = (dbOneCaption, .error (.notFound "Caption not found")) ∧
      rollbackCaptionEndpoint dbOneCaption 1 99
        = (dbOneCaption, .error (.badRequest ("Version not found: " ++ toString 99))) :=
  ⟨(rollback_error_cases dbOneCaption 5 99).1 (by rfl),
    (rollback_error_cases dbOneCaption 1 99).2
      { id := 1, caption_set_id := 1, file_id := 10, text := "a cat",
        source := "manual", vision_model := none, quality_score := none,
        quality_flags := none }
      (by rfl) (by rfl)⟩

/-! ### Manual single-caption edit -/

/-- C10: update_caption always snapshots exactly one new ledger entry with
operation manual_edit (whatever the supplied text, including text identical to
the current one) and forces the caption source to "manual". -/
theorem update_caption_always_versions (db : DB) (cid : Nat) (t : String)
    (c : Caption) (h : getCaption db cid = some c) :
    ∃ db' c', update_caption db cid t = some (db', c') ∧
      db'.versions = db.versions ++
        [{ id := db.nextVersionId, caption_id := c.id,
           version_number := (versionsFor db c.id).length + 1,
           text := c.text, operation := "manual_edit",
           operation_description := some "Caption text updated",
           source := some c.source, vision_model := c.vision_model,
           quality_score := c.quality_score,
           quality_flags := c.quality_flags }] ∧
      c'.text = t ∧ c'.source = "manual" ∧ c'.id = c.id ∧
      getCaption db' cid = some c' := by
  have hmem : c ∈ db.captions := by
    unfold getCaption at h
    exact List.mem_of_find?_eq_some h
  have hcid : cid = c.id := by
    unfold getCaption at h
    have := List.find?_some h
    simp only [beq_iff_eq] at this
    exact this.symm
  subst hcid
  refine ⟨setCaption (create_version db c "manual_edit"
      (some "Caption text updated")).1 { c with text := t, source := "manual" },
    { c with text := t, source := "manual" },
    by simp only [update_caption, h], rfl, rfl, rfl, rfl, ?_⟩
  unfold getCaption
  set c' : Caption := { c with text := t, source := "manual" } with hc'
  show (db.captions.map (fun x => if x.id == c'.id then c' else x)).find?
      (fun x => x.id == c.id) = some c'
  rw [find?_eq_filter_head?]
  have hmm : (db.captions.map (fun x => if x.id == c'.id then c' else x)).filter
      (fun x => x.id == c.id)
    = (db.captions.filter (fun x => x.id == c.id)).map (fun _ => c') :=
    filter_id_map_update_self db.captions c'
  rw [hmm]
  have hne : db.captions.filter (fun x => x.id == c.id) ≠ [] := by
    intro hnil
    have := List.filter_eq_nil_iff.mp hnil c hmem
    simp at this
  obtain ⟨y, ys, hys⟩ := List.exists_cons_of_ne_nil hne
  rw [hys]
  rfl

theorem update_caption_always_versions_witness :
    getCaption dbOneCaption 1
        = some { id := 1, caption_set_id := 1, file_id := 10, text := "a cat",
                 source := "manual", vision_model := none, quality_score := none,
                 quality_flags := none } ∧
      ∃ db' c', update_caption dbOneCaption 1 "a cat" = some (db', c') ∧
        db'.versions = dbOneCaption.versions ++
          [{ id := 1, caption_id := 1, version_number := 1,
             text := "a cat", operation := "manual_edit",
             operation_description := some "Caption text updated",
             source := some "manual", vision_model := none,
             quality_score := none, quality_flags := none }] ∧
        c'.text = "a cat" ∧ c'.source = "manual" ∧ c'.id = 1 ∧
        getCaption db' 1 = some c' :=
  ⟨rfl, update_caption_always_versions dbOneCaption 1 "a cat"
    { id := 1, caption_set_id := 1, file_id := 10, text := "a cat",
      source := "manual", vision_model := none, quality_score := none,
      quality_flags := none } rfl⟩

/-! ### Preview/apply parity -/

/-- C3: when the preview succeeds, preview and apply agree — the apply pass
updates exactly the captions the preview counted affected, both deciding per
caption by folding the same operation pipeline over the text in array order
and comparing the result with the original text. -/
theorem preview_apply_parity (r : RegexEngine) (db : DB) (sid : Nat)
    (req : BulkEditRequest) (p : BulkEditPreview)
    (h : preview_bulk_edit r db sid req = .ok p) :
    (apply_bulk_edit r db sid req).2.updated_count = p.affected_captions ∧
      p.affected_captions
        = (db.captions.filter (fun c => c.caption_set_id == sid)).countP
            (pipelineChanges r req.operations) := by
  have happly : (apply_bulk_edit r db sid req).2.updated_count
      = (db.captions.filter (fun c => c.caption_set_id == sid)).countP
          (pipelineChanges r req.operations) := by
    simp only [apply_bulk_edit]
    rw [applyBulkEditLoop_updated]
    simp
  have hpre : p.affected_captions
      = (db.captions.filter (fun c => c.caption_set_id == sid)).countP
          (pipelineChanges r req.operations) := by
    unfold preview_bulk_edit at h
    by_cases he : (db.captions.filter (fun c => c.caption_set_id == sid)).isEmpty
    · rw [if_pos he] at h
      cases h
      rw [List.isEmpty_iff] at he
      simp [he]
    · rw [if_neg he] at h
      cases hl : previewLoop r req.operations
        (db.captions.filter (fun c => c.caption_set_id == sid)) [] with
      | error msg => rw [hl] at h; cases h
      | ok aff =>
        rw [hl] at h
        cases h
        have := previewLoop_ok_length r req.operations _ [] aff hl
        simpa using this
  exact ⟨by rw [happly, hpre], hpre⟩

theorem preview_apply_parity_witness :
    preview_bulk_edit idRegexEngine dbOneCaption 1
        ⟨[{ operation_type := "prepend", text := some "A photo of " }]⟩
      = .ok ⟨1, 1,
          [⟨1, 10, "a cat", "A photo of a cat"⟩],
          "Prepend \x27A photo of \x27"⟩ ∧
      (apply_bulk_edit idRegexEngine dbOneCaption 1
        ⟨[{ operation_type := "prepend", text := some "A photo of " }]⟩).2.updated_count
      = (1 : Nat) :=
  ⟨by rfl, by
    have := preview_apply_parity idRegexEngine dbOneCaption 1
      ⟨[{ operation_type := "prepend", text := some "A photo of " }]⟩
      ⟨1, 1, [⟨1, 10, "a cat", "A photo of a cat"⟩], "Prepend \x27A photo of \x27"⟩
      (by rfl)
    exact this.1⟩

/-! ### Pre-image invariant helpers -/

theorem filter_sub_nil (l : List Caption) (q : Caption → Bool) (cid : Nat)
    (h : l.filter (fun x => x.id == cid) = []) :
    (l.filter q).filter (fun x => x.id == cid) = [] := by
  apply List.filter_eq_nil_iff.mpr
  intro x hx
  exact List.filter_eq_nil_iff.mp h x (List.mem_of_mem_filter hx)

theorem filter_set_id (l : List Caption) (c : Caption) (q : Caption → Bool)
    (h : l.filter (fun x => x.id == c.id) = [c]) :
    (l.filter q).filter (fun x => x.id == c.id)
      = if q c then [c] else [] := by
  induction l with
  | nil => cases h
  | cons a rest ih =>
    by_cases ha : (a.id == c.id) = true
    · rw [List.filter_cons_of_pos (p := fun (x : Caption) => x.id == c.id) ha] at h
      have hac : a = c := (List.cons_eq_cons.mp h).1
      have hrest : rest.filter (fun x => x.id == c.id) = [] :=
        (List.cons_eq_cons.mp h).2
      subst hac
      by_cases hq : q a = true
      · rw [List.filter_cons_of_pos (p := q) hq,
          List.filter_cons_of_pos (p := fun (x : Caption) => x.id == a.id) ha,
          filter_sub_nil rest q a.id hrest, if_pos hq]
      · rw [List.filter_cons_of_neg (p := q) hq,
          filter_sub_nil rest q a.id hrest, if_neg hq]
    · rw [List.filter_cons_of_neg (p := fun (x : Caption) => x.id == c.id) ha] at h
      by_cases hq : q a = true
      · rw [List.filter_cons_of_pos (p := q) hq,
          List.filter_cons_of_neg (p := fun (x : Caption) => x.id == c.id) ha,
          ih h]
      · rw [List.filter_cons_of_neg (p := q) hq, ih h]

theorem latestVersion_of_append (db' db : DB) (cid : Nat) (w : CaptionVersion)
    (hv : versionsFor db' cid = versionsFor db cid ++ [w])
    (hb : versionsBounded db cid)
    (hn : (versionsFor db cid).length < w.version_number) :
    latestVersion db' cid = some w := by
  rw [latestVersion, hv]
  exact latestOf_append_max hb hn

/-- C1: whenever a mutating service operation (manual edit, upsert over an
existing caption, bulk edit, single-version rollback, bulk rollback) records a
ledger snapshot for caption c — the ledger for c grew by one row — the newest
ledger entry afterwards carries exactly c's pre-mutation text and denormalized
source, vision_model, quality_score and quality_flags, never the post-mutation
state. -/
theorem snapshot_preimage (r : RegexEngine) (op : SvcOp) (db : DB) (c : Caption)
    (hwf : CaptionsWF db) (hb : versionsBounded db c.id) (hc : c ∈ db.captions)
    (hn : (versionsFor (step r op db) c.id).length
      = (versionsFor db c.id).length + 1) :
    ∃ v, latestVersion (step r op db) c.id = some v ∧ v.text = c.text ∧
      v.source = some c.source ∧ v.vision_model = c.vision_model ∧
      v.quality_score = c.quality_score ∧ v.quality_flags = c.quality_flags := by
  cases op with
  | updateCaption cid' t =>
    cases hg : getCaption db cid' with
    | none =>
      simp only [step, update_caption, hg] at hn
      omega
    | some x =>
      simp only [step, update_caption, hg] at hn ⊢
      by_cases hx : x.id = c.id
      · have hxm : x ∈ db.captions := by
          unfold getCaption at hg
          exact List.mem_of_find?_eq_some hg
        have hxc : x = c := nodup_id_unique hwf hxm hc hx
        subst hxc
        refine ⟨(create_version db x "manual_edit"
          (some "Caption text updated")).2, ?_, rfl, rfl, rfl, rfl, rfl⟩
        apply latestVersion_of_append _ db x.id
        · rw [versionsFor_setCaption, versionsFor_create_version_self]
        · exact hb
        · simp [create_version]
      · have hstab : versionsFor (setCaption (create_version db x "manual_edit"
            (some "Caption text updated")).1
            { x with text := t, source := "manual" }) c.id
            = versionsFor db c.id := by
          rw [versionsFor_setCaption,
            versionsFor_create_version_other db x _ _ (fun he => hx he.symm)]
        rw [hstab] at hn
        omega
  | upsert sid data cv =>
    by_cases hf : data.file_id ∈ db.files
    · cases hg : getCaptionForFile db sid data.file_id with
      | none =>
        simp only [step, create_or_update_caption, if_pos hf, hg, versionsFor] at hn
        omega
      | some e =>
        by_cases hcv : cv = true
        · subst hcv
          simp only [step, create_or_update_caption, if_pos hf, hg, if_true] at hn ⊢
          by_cases he : e.id = c.id
          · have hem : e ∈ db.captions := by
              unfold getCaptionForFile at hg
              exact List.mem_of_find?_eq_some hg
            have hec : e = c := nodup_id_unique hwf hem hc he
            subst hec
            refine ⟨(create_version db e
              (if data.source = "manual" then "manual_edit"
               else "auto_generate_" ++ data.source)
              (some ("Updated caption from " ++ e.source ++ " to " ++ data.source))).2,
              ?_, rfl, rfl, rfl, rfl, rfl⟩
            apply latestVersion_of_append _ db e.id
            · rw [versionsFor_setCaption, versionsFor_create_version_self]
            · exact hb
            · simp [create_version]
          · have hstab : versionsFor (setCaption (create_version db e
                (if data.source = "manual" then "manual_edit"
                 else "auto_generate_" ++ data.source)
                (some ("Updated caption from " ++ e.source ++ " to " ++ data.source))).1
                { e with
                  text := data.text
                  source := data.source
                  vision_model := if data.vision_model ≠ none then data.vision_model
                    else e.vision_model
                  quality_score := if data.quality_score ≠ none then data.quality_score
                    else e.quality_score
                  quality_flags := if (match data.quality_flags with
                      | some l => if l = [] then none else some l
                      | none => none) ≠ none then
                      (match data.quality_flags with
                        | some l => if l = [] then none else some l
                        | none => none)
                    else e.quality_flags }) c.id
              = versionsFor db c.id := by
              rw [versionsFor_setCaption,
                versionsFor_create_version_other db e _ _ (fun h2 => he h2.symm)]
            rw [hstab] at hn
            omega
        · simp only [Bool.not_eq_true] at hcv
          subst hcv
          simp only [step, create_or_update_caption, if_pos hf, hg,
            Bool.false_eq_true, if_false, versionsFor, setCaption] at hn
          omega
    · simp only [step, create_or_update_caption, if_neg hf] at hn
      omega
  | bulkEdit sid ops =>
    simp only [step, apply_bulk_edit] at hn ⊢
    have hdb : db.captions.filter (fun x => x.id == c.id) = [c] :=
      filter_id_singleton hwf hc
    by_cases hset : (c.caption_set_id == sid) = true
    · have hcs : (db.captions.filter (fun x => x.caption_set_id == sid)).filter
          (fun x => x.id == c.id) = [c] := by
        rw [filter_set_id db.captions c _ hdb, if_pos hset]
      obtain ⟨hcap, i, hv⟩ := applyBulkEditLoop_target r ops
        (build_operation_summary ops)
        (db.captions.filter (fun x => x.caption_set_id == sid)) db 0 0 [] c hcs hdb
      by_cases hch : pipelineChanges r ops c = true
      · rw [if_pos hch] at hv
        exact ⟨_, latestVersion_of_append _ db c.id _ hv hb (by simp), rfl, rfl,
          rfl, rfl, rfl⟩
      · rw [if_neg hch, List.append_nil] at hv
        rw [hv] at hn
        omega
    · have hcs0 : (db.captions.filter (fun x => x.caption_set_id == sid)).filter
          (fun x => x.id == c.id) = [] := by
        rw [filter_set_id db.captions c _ hdb, if_neg hset]
      have hst := (applyBulkEditLoop_stable r ops (build_operation_summary ops)
        (db.captions.filter (fun x => x.caption_set_id == sid)) db 0 0 [] c.id hcs0).1
      rw [hst] at hn
      omega
  | rollback cid' vid =>
    cases hg : getCaption db cid' with
    | none =>
      simp only [step, rollback_caption, hg] at hn
      omega
    | some x =>
      cases hvf : db.versions.find? (fun v => v.id == vid && v.caption_id == cid') with
      | none =>
        simp only [step, rollback_caption, hg, hvf] at hn
        omega
      | some w0 =>
        simp only [step, rollback_caption, hg, hvf] at hn ⊢
        by_cases hx : x.id = c.id
        · have hxm : x ∈ db.captions := by
            unfold getCaption at hg
            exact List.mem_of_find?_eq_some hg
          have hxc : x = c := nodup_id_unique hwf hxm hc hx
          subst hxc
          refine ⟨(create_version db x "rollback"
            (some ("Rolled back to version " ++ toString w0.version_number))).2,
            ?_, rfl, rfl, rfl, rfl, rfl⟩
          apply latestVersion_of_append _ db x.id
          · rw [versionsFor_setCaption, versionsFor_create_version_self]
          · exact hb
          · simp [create_version]
        · have hstab : versionsFor (setCaption (create_version db x "rollback"
              (some ("Rolled back to version " ++ toString w0.version_number))).1
              (rollbackRestore x w0)) c.id
              = versionsFor db c.id := by
            rw [versionsFor_setCaption,
              versionsFor_create_version_other db x _ _ (fun he => hx he.symm)]
          rw [hstab] at hn
          omega
  | bulkRollback sid =>
    simp only [step, apply_bulk_rollback] at hn ⊢
    have hdb : db.captions.filter (fun x => x.id == c.id) = [c] :=
      filter_id_singleton hwf hc
    by_cases hset : (c.caption_set_id == sid) = true
    · have hcs : (db.captions.filter (fun x => x.caption_set_id == sid)).filter
          (fun x => x.id == c.id) = [c] := by
        rw [filter_set_id db.captions c _ hdb, if_pos hset]
      obtain ⟨hcap, i, d, hv⟩ := applyBulkRollbackLoop_target
        (db.captions.filter (fun x => x.caption_set_id == sid)) db 0 0 c hcs hdb
      by_cases htip : tipIsBulkEdit db c = true
      · rw [if_pos htip] at hv
        exact ⟨_, latestVersion_of_append _ db c.id _ hv hb (by simp), rfl, rfl,
          rfl, rfl, rfl⟩
      · rw [if_neg htip, List.append_nil] at hv
        rw [hv] at hn
        omega
    · have hcs0 : (db.captions.filter (fun x => x.caption_set_id == sid)).filter
          (fun x => x.id == c.id) = [] := by
        rw [filter_set_id db.captions c _ hdb, if_neg hset]
      have hst := (applyBulkRollbackLoop_stable
        (db.captions.filter (fun x => x.caption_set_id == sid)) db 0 0 c.id hcs0).1
      rw [hst] at hn
      omega

theorem snapshot_preimage_witness :
    CaptionsWF dbOneCaption ∧
      versionsBounded dbOneCaption 1 ∧
      ({ id := 1, caption_set_id := 1, file_id := 10, text := "a cat",
         source := "manual", vision_model := none, quality_score := none,
         quality_flags := none } : Caption) ∈ dbOneCaption.captions ∧
      (versionsFor (step idRegexEngine (.updateCaption 1 "a dog") dbOneCaption) 1).length
        = (versionsFor dbOneCaption 1).length + 1 ∧
      ∃ v, latestVersion (step idRegexEngine (.updateCaption 1 "a dog") dbOneCaption) 1
          = some v ∧ v.text = "a cat" ∧ v.source = some "manual" ∧
          v.vision_model = none ∧ v.quality_score = none ∧ v.quality_flags = none :=
  ⟨by decide, by decide, by decide, by rfl,
    snapshot_preimage idRegexEngine (.updateCaption 1 "a dog") dbOneCaption
      { id := 1, caption_set_id := 1, file_id := 10, text := "a cat",
        source := "manual", vision_model := none, quality_score := none,
        quality_flags := none }
      (by decide) (by decide) (by decide) (by rfl)⟩

/-- C2: every mutating operation preserves the ledger invariant — per caption
the version numbers are exactly 1..N with no gaps or duplicates, N being the
number of snapshots recorded — and treats the ledger as append-only: the old
rows survive unchanged as a prefix of the new rows (never mutated or
deleted), new snapshots landing at count + 1. -/
theorem ledger_monotonic (r : RegexEngine) (op : SvcOp) (db : DB)
    (h : LedgerWF db) :
    LedgerWF (step r op db) ∧
      (∃ tail, (step r op db).versions = db.versions ++ tail) ∧
      ∀ cid n, n ∈ versionNums (step r op db) cid ↔
        (1 ≤ n ∧ n ≤ (versionNums (step r op db) cid).length) := by
  have hstep := step_ledger r op db
  refine ⟨hstep.1 h, hstep.2, ?_⟩
  intro cid
  rcases hstep.1 h cid with ⟨hnd, hb⟩
  exact nums_exactly hnd hb

theorem ledger_monotonic_witness :
    LedgerWF dbOneCaption ∧
      LedgerWF (step idRegexEngine (.updateCaption 1 "a dog") dbOneCaption) ∧
      (∃ tail, (step idRegexEngine (.updateCaption 1 "a dog") dbOneCaption).versions
        = dbOneCaption.versions ++ tail) ∧
      ∀ cid n, n ∈ versionNums
          (step idRegexEngine (.updateCaption 1 "a dog") dbOneCaption) cid ↔
        (1 ≤ n ∧ n ≤ (versionNums
          (step idRegexEngine (.updateCaption 1 "a dog") dbOneCaption) cid).length) := by
  have hwf : LedgerWF dbOneCaption := by
    intro cid
    constructor
    · simp [versionNums, versionsFor, dbOneCaption]
    · intro n hn
      simp [versionNums, versionsFor, dbOneCaption] at hn
  have := ledger_monotonic idRegexEngine (.updateCaption 1 "a dog") dbOneCaption hwf
  exact ⟨hwf, this.1, this.2.1, this.2.2⟩

/-! ### Bulk rollback scoping -/

theorem getCaption_of_filter (db' : DB) (cid : Nat) (x : Caption)
    (h : db'.captions.filter (fun y => y.id == cid) = [x]) :
    getCaption db' cid = some x := by
  unfold getCaption
  rw [find?_eq_filter_head?, h]
  rfl

theorem bulkRollbackOutcome_of_not_tip (db : DB) (c : Caption)
    (h : tipIsBulkEdit db c = false) : bulkRollbackOutcome db c = c := by
  unfold tipIsBulkEdit at h
  unfold bulkRollbackOutcome
  cases hl : latestVersion db c.id with
  | none => rfl
  | some v =>
    rw [hl] at h
    simp only [beq_eq_false_iff_ne, ne_eq] at h
    simp [h]

/-- C4: bulk rollback reverses exactly the captions whose ledger tip is a
bulk_edit snapshot.  Every caption of the set whose tip is absent or carries a
different operation is skipped and left fully unmodified; in the two-caption
scenario — A with tip bulk_edit, B with tip manual_edit — A is restored from
the stored fields of its bulk_edit version, the record of B is untouched, and the report
is rolled_back_count = 1, skipped_count = 1. -/
theorem bulk_rollback_scoping (db : DB) (sid : Nat) (hwf : CaptionsWF db) :
    (∀ c, c ∈ db.captions → (c.caption_set_id == sid) = true →
      tipIsBulkEdit db c = false →
      getCaption (apply_bulk_rollback db sid).1 c.id = some c ∧
        versionsFor (apply_bulk_rollback db sid).1 c.id = versionsFor db c.id) ∧
    (∀ A B vA vB,
      db.captions.filter (fun x => x.caption_set_id == sid) = [A, B] →
      latestVersion db A.id = some vA → vA.operation = "bulk_edit" →
      latestVersion db B.id = some vB → vB.operation = "manual_edit" →
      (apply_bulk_rollback db sid).2.rolled_back_count = 1 ∧
        (apply_bulk_rollback db sid).2.skipped_count = 1 ∧
        getCaption (apply_bulk_rollback db sid).1 B.id = some B ∧
        ∃ A', getCaption (apply_bulk_rollback db sid).1 A.id = some A' ∧
          A'.text = vA.text ∧ A'.vision_model = vA.vision_model ∧
          A'.quality_score = vA.quality_score ∧
          A'.quality_flags = vA.quality_flags) := by
  constructor
  · intro c hcmem hcset htip
    have hdb : db.captions.filter (fun x => x.id == c.id) = [c] :=
      filter_id_singleton hwf hcmem
    have hcs : (db.captions.filter (fun x => x.caption_set_id == sid)).filter
        (fun x => x.id == c.id) = [c] := by
      rw [filter_set_id db.captions c _ hdb, if_pos hcset]
    obtain ⟨hcap, i, d, hv⟩ := applyBulkRollbackLoop_target
      (db.captions.filter (fun x => x.caption_set_id == sid)) db 0 0 c hcs hdb
    rw [htip] at hv
    simp only [Bool.false_eq_true, if_false, List.append_nil] at hv
    constructor
    · rw [bulkRollbackOutcome_of_not_tip db c htip] at hcap
      exact getCaption_of_filter _ _ _ hcap
    · exact hv
  · intro A B vA vB hfil hlA hopA hlB hopB
    have hsubl : ([A, B].map (fun c => c.id)).Sublist
        (db.captions.map (fun c => c.id)) := by
      rw [← hfil]
      exact (List.filter_sublist db.captions).map (fun c => c.id)
    have hndAB : ([A, B].map (fun c => c.id)).Nodup := hwf.sublist hsubl
    have hAB : A.id ≠ B.id := by
      simp only [List.map_cons, List.map_nil, List.nodup_cons] at hndAB
      simpa using hndAB.1
    have hAmem : A ∈ db.captions :=
      List.mem_of_mem_filter (hfil ▸ List.mem_cons_self A [B])
    have hBmem : B ∈ db.captions :=
      List.mem_of_mem_filter
        (hfil ▸ List.mem_cons_of_mem A (List.mem_cons_self B []))
    have hAset : (A.caption_set_id == sid) = true :=
      List.of_mem_filter (p := fun (x : Caption) => x.caption_set_id == sid)
        (hfil ▸ List.mem_cons_self A [B])
    have hBset : (B.caption_set_id == sid) = true :=
      List.of_mem_filter (p := fun (x : Caption) => x.caption_set_id == sid)
        (hfil ▸ List.mem_cons_of_mem A (List.mem_cons_self B []))
    have htipA : tipIsBulkEdit db A = true := by
      simp [tipIsBulkEdit, hlA, hopA]
    have htipB : tipIsBulkEdit db B = false := by
      simp [tipIsBulkEdit, hlB, hopB]
    have hcounts := applyBulkRollbackLoop_counts
      (db.captions.filter (fun x => x.caption_set_id == sid)) db 0 0
      (by rw [hfil]; exact hndAB)
    have hcount1 : (db.captions.filter
        (fun x => x.caption_set_id == sid)).countP (tipIsBulkEdit db) = 1 := by
      rw [hfil]
      simp [List.countP_cons, htipA, htipB]
    have hcount2 : (db.captions.filter
        (fun x => x.caption_set_id == sid)).countP
          (fun c => !tipIsBulkEdit db c) = 1 := by
      rw [hfil]
      simp [List.countP_cons, htipA, htipB]
    refine ⟨?_, ?_, ?_, ?_⟩
    · show (applyBulkRollbackLoop _ db 0 0).2.1 = 1
      rw [hcounts.1, hcount1]
    · show (applyBulkRollbackLoop _ db 0 0).2.2 = 1
      rw [hcounts.2, hcount2]
    · have hdbB : db.captions.filter (fun x => x.id == B.id) = [B] :=
        filter_id_singleton hwf hBmem
      have hcsB : (db.captions.filter (fun x => x.caption_set_id == sid)).filter
          (fun x => x.id == B.id) = [B] := by
        rw [filter_set_id db.captions B _ hdbB, if_pos hBset]
      obtain ⟨hcapB, _, _, _⟩ := applyBulkRollbackLoop_target
        (db.captions.filter (fun x => x.caption_set_id == sid)) db 0 0 B hcsB hdbB
      rw [bulkRollbackOutcome_of_not_tip db B htipB] at hcapB
      exact getCaption_of_filter _ _ _ hcapB
    · have hdbA : db.captions.filter (fun x => x.id == A.id) = [A] :=
        filter_id_singleton hwf hAmem
      have hcsA : (db.captions.filter (fun x => x.caption_set_id == sid)).filter
          (fun x => x.id == A.id) = [A] := by
        rw [filter_set_id db.captions A _ hdbA, if_pos hAset]
      obtain ⟨hcapA, _, _, _⟩ := applyBulkRollbackLoop_target
        (db.captions.filter (fun x => x.caption_set_id == sid)) db 0 0 A hcsA hdbA
      have houtA : bulkRollbackOutcome db A = rollbackRestore A vA := by
        simp [bulkRollbackOutcome, hlA, hopA]
      rw [houtA] at hcapA
      exact ⟨rollbackRestore A vA, getCaption_of_filter _ _ _ hcapA,
        rfl, rfl, rfl, rfl⟩

/-! ### Round trip: C4 witness, then C5 -/

theorem bulk_rollback_scoping_witness :
    CaptionsWF dbPair ∧
      (apply_bulk_rollback dbPair 1).2.rolled_back_count = 1 ∧
      (apply_bulk_rollback dbPair 1).2.skipped_count = 1 ∧
      getCaption (apply_bulk_rollback dbPair 1).1 2 = some capB ∧
      ∃ A', getCaption (apply_bulk_rollback dbPair 1).1 1 = some A' ∧
        A'.text = "old A" ∧ A'.vision_model = none ∧
        A'.quality_score = none ∧ A'.quality_flags = none := by
  have hwf : CaptionsWF dbPair := by decide
  have h := (bulk_rollback_scoping dbPair 1 hwf).2 capA capB verA verB
    (by decide) (by rfl) (by rfl) (by rfl) (by rfl)
  exact ⟨hwf, h.1, h.2.1, h.2.2.1, h.2.2.2⟩

/-- C5: on a caption whose text is "a cat", a bulk edit prepending
"A photo of " makes the text "A photo of a cat", and a subsequent bulk
rollback returns the text to exactly "a cat" while appending a ledger entry
with operation bulk_rollback whose stored text is "A photo of a cat". -/
theorem bulk_edit_rollback_round_trip (r : RegexEngine) (db : DB) (sid : Nat)
    (c : Caption) (hwf : CaptionsWF db) (hb : versionsBounded db c.id)
    (hc : c ∈ db.captions) (hset : (c.caption_set_id == sid) = true)
    (htext : c.text = "a cat") :
    (∃ c1, getCaption (apply_bulk_edit r db sid prependPhotoReq).1 c.id = some c1 ∧
        c1.text = "A photo of a cat") ∧
    (∃ c2, getCaption
        (apply_bulk_rollback (apply_bulk_edit r db sid prependPhotoReq).1 sid).1 c.id
        = some c2 ∧ c2.text = "a cat") ∧
    (∃ w, w ∈ versionsFor
        (apply_bulk_rollback (apply_bulk_edit r db sid prependPhotoReq).1 sid).1 c.id ∧
        w.operation = "bulk_rollback" ∧ w.text = "A photo of a cat") := by
  have hdb : db.captions.filter (fun x => x.id == c.id) = [c] :=
    filter_id_singleton hwf hc
  have hcs : (db.captions.filter (fun x => x.caption_set_id == sid)).filter
      (fun x => x.id == c.id) = [c] := by
    rw [filter_set_id db.captions c _ hdb, if_pos hset]
  have hpt : pipelineText r prependPhotoReq.operations "a cat"
      = .ok "A photo of a cat" := by rfl
  have hch : pipelineChanges r prependPhotoReq.operations c = true := by
    simp [pipelineChanges, htext, hpt]
  have hout : bulkEditOutcome r prependPhotoReq.operations c
      = { c with text := "A photo of a cat", source := "manual" } := by
    simp only [bulkEditOutcome, htext, hpt]
    simp
  obtain ⟨hcap1, i, hv1⟩ := applyBulkEditLoop_target r prependPhotoReq.operations
    (build_operation_summary prependPhotoReq.operations)
    (db.captions.filter (fun x => x.caption_set_id == sid)) db 0 0 [] c hcs hdb
  rw [if_pos hch] at hv1
  rw [hout] at hcap1
  have hcap1' : ((apply_bulk_edit r db sid prependPhotoReq).1).captions.filter
      (fun x => x.id == c.id)
      = [{ c with text := "A photo of a cat", source := "manual" }] := hcap1
  have hv1' : versionsFor (apply_bulk_edit r db sid prependPhotoReq).1 c.id
      = versionsFor db c.id ++
        [{ id := i, caption_id := c.id,
           version_number := (versionsFor db c.id).length + 1,
           text := c.text, operation := "bulk_edit",
           operation_description := some (build_operation_summary prependPhotoReq.operations),
           source := some c.source, vision_model := c.vision_model,
           quality_score := c.quality_score,
           quality_flags := c.quality_flags }] := hv1
  have hlat := latestVersion_of_append _ db c.id _ hv1' hb (by simp)
  have hcs1 : (((apply_bulk_edit r db sid prependPhotoReq).1).captions.filter
      (fun x => x.caption_set_id == sid)).filter
      (fun x => x.id == c.id)
      = [{ c with text := "A photo of a cat", source := "manual" }] := by
    have hfs := filter_set_id ((apply_bulk_edit r db sid prependPhotoReq).1).captions
      { c with text := "A photo of a cat", source := "manual" }
      (fun x => x.caption_set_id == sid) hcap1'
    rw [hfs, if_pos hset]
  obtain ⟨hcap2, i2, d2, hv2⟩ := applyBulkRollbackLoop_target
    (((apply_bulk_edit r db sid prependPhotoReq).1).captions.filter
      (fun x => x.caption_set_id == sid))
    (apply_bulk_edit r db sid prependPhotoReq).1 0 0
    { c with text := "A photo of a cat", source := "manual" } hcs1 hcap1'
  have htip : tipIsBulkEdit (apply_bulk_edit r db sid prependPhotoReq).1
      { c with text := "A photo of a cat", source := "manual" } = true := by
    simp [tipIsBulkEdit, hlat]
  refine ⟨?_, ?_, ?_⟩
  · exact ⟨{ c with text := "A photo of a cat", source := "manual" },
      getCaption_of_filter _ _ _ hcap1', rfl⟩
  · have houtc : bulkRollbackOutcome (apply_bulk_edit r db sid prependPhotoReq).1
        { c with text := "A photo of a cat", source := "manual" }
        = rollbackRestore { c with text := "A photo of a cat", source := "manual" }
            { id := i, caption_id := c.id,
              version_number := (versionsFor db c.id).length + 1,
              text := c.text, operation := "bulk_edit",
              operation_description :=
                some (build_operation_summary prependPhotoReq.operations),
              source := some c.source, vision_model := c.vision_model,
              quality_score := c.quality_score,
              quality_flags := c.quality_flags } := by
      simp [bulkRollbackOutcome, hlat]
    rw [houtc] at hcap2
    refine ⟨_, getCaption_of_filter _ _ _ hcap2, ?_⟩
    simp [rollbackRestore, htext]
  · rw [if_pos htip] at hv2
    have hv2' : versionsFor
        (apply_bulk_rollback (apply_bulk_edit r db sid prependPhotoReq).1 sid).1 c.id
      = versionsFor (apply_bulk_edit r db sid prependPhotoReq).1 c.id ++
        [{ id := i2, caption_id := c.id,
           version_number :=
             (versionsFor (apply_bulk_edit r db sid prependPhotoReq).1 c.id).length + 1,
           text := "A photo of a cat", operation := "bulk_rollback",
           operation_description := d2, source := some "manual",
           vision_model := c.vision_model, quality_score := c.quality_score,
           quality_flags := c.quality_flags }] := hv2
    refine ⟨(⟨i2, c.id,
        (versionsFor (apply_bulk_edit r db sid prependPhotoReq).1 c.id).length + 1,
        "A photo of a cat", "bulk_rollback", d2, some "manual",
        c.vision_model, c.quality_score, c.quality_flags⟩ : CaptionVersion),
      ?_, rfl, rfl⟩
    rw [hv2']
    exact List.mem_append_right _ (List.mem_singleton_self _)

theorem bulk_edit_rollback_round_trip_witness :
    CaptionsWF dbOneCaption ∧
      (∃ c1, getCaption
          (apply_bulk_edit idRegexEngine dbOneCaption 1 prependPhotoReq).1 1
          = some c1 ∧ c1.text = "A photo of a cat") ∧
      (∃ c2, getCaption
          (apply_bulk_rollback
            (apply_bulk_edit idRegexEngine dbOneCaption 1 prependPhotoReq).1 1).1 1
          = some c2 ∧ c2.text = "a cat") ∧
      (∃ w, w ∈ versionsFor
          (apply_bulk_rollback
            (apply_bulk_edit idRegexEngine dbOneCaption 1 prependPhotoReq).1 1).1 1 ∧
          w.operation = "bulk_rollback" ∧ w.text = "A photo of a cat") :=
  ⟨by decide,
    bulk_edit_rollback_round_trip idRegexEngine dbOneCaption 1
      { id := 1, caption_set_id := 1, file_id := 10, text := "a cat",
        source := "manual", vision_model := none, quality_score := none,
        quality_flags := none }
      (by decide) (by decide) (by decide) (by rfl) (by rfl)⟩
